import Mathlib

attribute [local semireducible] Rat.mul Rat.inv Rat.add Rat.sub

/-!
Verification of the forex backtest engine (`src/analysis/backtest.py`,
`src/utils/time_utils.py`, `src/data/database.py`).

Shallow embedding conventions:
* Python floats are modelled as exact rationals (`ℚ`); the claims under
  study are about structure and exact update formulas, not IEEE rounding.
* The SQLite candle table is modelled as a list of rows; the two queries
  used by the engine (`get_candle_at_time`, `get_subsequent_candles`) are
  modelled by filtering and sorting that list, matching the SQL
  `WHERE symbol = ? AND time = ?` / `WHERE symbol = ? AND time > ?
  ORDER BY time ASC` on text timestamps (SQLite text comparison is
  lexicographic, as is `String` order here).
* Python `datetime` values are modelled by a record of calendar fields;
  subtraction goes through the proleptic-Gregorian ordinal, exactly as
  `datetime.toordinal`.
* Fallible Python code (exceptions) is modelled with `Option`/`Except`.
-/

/-- Trading-day candle row, one row of the `candle_M15` table:
`(symbol, time, open, high, low, close, ...)`.  `time` is the text
timestamp `YYYY-MM-DD HH:MM:SS` as stored in the database.  `open` is a
Lean keyword, so the field is named `openP`. -/
structure Candle where
  symbol : String
  time : String
  openP : ℚ
  high : ℚ
  low : ℚ
  close : ℚ
deriving DecidableEq, Repr

/-- Terminal state of one simulated (stop-loss, ratio) pair.  The data
model (`spec.md` §3, and the only values `backtest_trade` produces). -/
inductive TradeResult where
  | Winning
  | Losing
  | Inconclusive
deriving DecidableEq, Repr

/-- Python `datetime` (second precision; the engine never uses
microseconds). -/
structure DT where
  year : ℕ
  month : ℕ
  day : ℕ
  hour : ℕ
  minute : ℕ
  second : ℕ
deriving DecidableEq, Repr

/-- Gregorian leap-year test (Python `calendar.isleap`). -/
def is_leap (y : ℕ) : Bool :=
  (y % 4 = 0 && y % 100 ≠ 0) || y % 400 = 0

/-- Days in a month (Python `calendar.monthrange` second component). -/
def days_in_month (y m : ℕ) : ℕ :=
  if m = 2 then (if is_leap y then 29 else 28)
  else if m = 4 ∨ m = 6 ∨ m = 9 ∨ m = 11 then 30
  else 31

/-- Days in the months strictly before month `m` of year `y`. -/
def days_before_month (y m : ℕ) : ℕ :=
  (List.range (m - 1)).foldl (fun a k => a + days_in_month y (k + 1)) 0

/-- Python `datetime.toordinal`: day number of `y-m-d` counting
0001-01-01 as 1 (proleptic Gregorian). -/
def ymd2ord (y m d : ℕ) : ℕ :=
  (y - 1) * 365 + (y - 1) / 4 - (y - 1) / 100 + (y - 1) / 400
    + days_before_month y m + d

/-- Seconds of a `datetime` from the epoch 0001-01-01 00:00:00; datetime
subtraction (`timedelta.total_seconds`) is the difference of these. -/
def dt_to_secs (t : DT) : ℤ :=
  86400 * (ymd2ord t.year t.month t.day : ℤ)
    + 3600 * (t.hour : ℤ) + 60 * (t.minute : ℤ) + (t.second : ℤ)

/-- Seconds since midnight of the `datetime`'s time component
(Python `datetime.time()`, compared against the fixed session bounds). -/
def dt_time_secs (t : DT) : ℕ :=
  3600 * t.hour + 60 * t.minute + t.second

/-- Round-half-to-even of a rational to an integer (Python `round` on an
exactly representable value; IEEE representation noise is not modelled,
nothing proved here depends on it). -/
def round_half_even (q : ℚ) : ℤ :=
  let f := ⌊q⌋
  let frac := q - f
  if frac < 1/2 then f
  else if frac > 1/2 then f + 1
  else if f % 2 = 0 then f else f + 1

/-- Python `round(x, 1)`. -/
def py_round1 (q : ℚ) : ℚ := (round_half_even (q * 10) : ℚ) / 10

/-- Value of a digit string (most significant first). -/
def digits_val (cs : List Char) : ℕ :=
  cs.foldl (fun a c => 10 * a + (c.toNat - 48)) 0

/-- Split a character list at every occurrence of a separator
character, keeping empty chunks — Python `str.split(sep)` for a
one-character separator (every separator in the fixed `strptime`
formats used here is one character). -/
def split_char (sep : Char) : List Char → List (List Char)
  | [] => [[]]
  | c :: rest =>
    if c = sep then [] :: split_char sep rest
    else
      match split_char sep rest with
      | [] => [[c]]
      | g :: gs => (c :: g) :: gs

/-- Parse a digit-only field of `strptime`: between 1 and `maxLen`
characters, all digits, value within `[lo, hi]` (the ranges the
`_strptime` regexes enforce). -/
def parse_field (cs : List Char) (maxLen lo hi : ℕ) : Option ℕ :=
  if 1 ≤ cs.length ∧ cs.length ≤ maxLen ∧ cs.all Char.isDigit then
    let v := digits_val cs
    if lo ≤ v ∧ v ≤ hi then some v else none
  else none

/-- Parse a digit-only field of exactly `len` characters. -/
def parse_field_exact (cs : List Char) (len lo hi : ℕ) : Option ℕ :=
  if cs.length = len ∧ cs.all Char.isDigit then
    let v := digits_val cs
    if lo ≤ v ∧ v ≤ hi then some v else none
  else none

/-- `time_utils.combine_date_and_time`: Python
`datetime.strptime(f"{date_str} {time_str}", "%d/%m/%y %H:%M")`,
returning `None` on `ValueError`.  `%y` maps 00–68 to 2000–2068 and
69–99 to 1969–1999; the day is validated against the month length
(the `datetime` constructor raises for e.g. 30 February). -/
def combine_date_and_time (date_str time_str : String) : Option DT :=
  match split_char ' ' (date_str.data ++ ' ' :: time_str.data) with
  | [d, t] =>
    match split_char '/' d, split_char ':' t with
    | [dd, mm, yy], [hh, mi] => do
      let d' ← parse_field dd 2 1 31
      let m' ← parse_field mm 2 1 12
      let y2 ← parse_field_exact yy 2 0 99
      let h' ← parse_field hh 2 0 23
      let mi' ← parse_field mi 2 0 59
      let y' := if y2 ≤ 68 then 2000 + y2 else 1900 + y2
      if d' ≤ days_in_month y' m' then
        some ⟨y', m', d', h', mi', 0⟩
      else none
    | _, _ => none
  | _ => none

/-- `time_utils.parse_db_datetime` / the `strptime(candle_time,
"%Y-%m-%d %H:%M:%S")` call inside `backtest_trade`, returning `None`
instead of raising `ValueError`. -/
def parse_db_datetime (s : String) : Option DT :=
  match split_char ' ' s.data with
  | [d, t] =>
    match split_char '-' d, split_char ':' t with
    | [ys, ms, ds], [hs, mis, ss] => do
      let y ← parse_field_exact ys 4 1 9999
      let m ← parse_field ms 2 1 12
      let dd ← parse_field ds 2 1 31
      let h ← parse_field hs 2 0 23
      let mi ← parse_field mis 2 0 59
      let s' ← parse_field ss 2 0 59
      if dd ≤ days_in_month y m then
        some ⟨y, m, dd, h, mi, s'⟩
      else none
    | _, _ => none
  | _ => none

/-- Left-pad a numeral with zeroes to width `w`. -/
def pad_num (w n : ℕ) : String :=
  let s := toString n
  String.mk (List.replicate (w - s.length) '0') ++ s

/-- `time_utils.format_datetime_for_db`: `strftime("%Y-%m-%d %H:%M:%S")`. -/
def format_datetime_for_db (t : DT) : String :=
  pad_num 4 t.year ++ "-" ++ pad_num 2 t.month ++ "-" ++ pad_num 2 t.day
    ++ " " ++ pad_num 2 t.hour ++ ":" ++ pad_num 2 t.minute
    ++ ":" ++ pad_num 2 t.second

/-- `strftime("%Y-%m-%d %H:%M")`, used for `StartDatetime` /
`EndDatetime` fields. -/
def format_datetime_minute (t : DT) : String :=
  pad_num 4 t.year ++ "-" ++ pad_num 2 t.month ++ "-" ++ pad_num 2 t.day
    ++ " " ++ pad_num 2 t.hour ++ ":" ++ pad_num 2 t.minute

/-- `time_utils.format_display_date`: `strftime("%d/%m/%y")`. -/
def format_display_date (t : DT) : String :=
  pad_num 2 t.day ++ "/" ++ pad_num 2 t.month ++ "/" ++ pad_num 2 (t.year % 100)

/-- `time_utils.format_display_time`: `strftime("%H:%M")`. -/
def format_display_time (t : DT) : String :=
  pad_num 2 t.hour ++ ":" ++ pad_num 2 t.minute

/-- `time_utils.get_session_for_time` on the time component, expressed
in seconds since midnight (`datetime.time` values are compared against
the fixed bounds 05:00 = 18000 s, 15:00 = 54000 s, 20:00 = 72000 s;
sub-second parts never flip a comparison against a whole-second bound). -/
def get_session_for_time (t : ℕ) : String :=
  if 54000 ≤ t ∧ t < 72000 then "London"
  else if 18000 ≤ t ∧ t < 54000 then "Tokyo"
  else if 72000 ≤ t ∨ t < 18000 then "New York"
  else "Unknown"

/-- Strict code-point lexicographic comparison of character lists:
the text comparison SQLite (`time > ?`, `ORDER BY time`) and Python
(`sorted` on string keys) perform on these ASCII timestamps. -/
def chars_lt : List Char → List Char → Bool
  | [], [] => false
  | [], _ :: _ => true
  | _ :: _, [] => false
  | a :: as, b :: bs =>
    if a.toNat < b.toNat then true
    else if b.toNat < a.toNat then false
    else chars_lt as bs

/-- `a < b` on strings (code-point lexicographic). -/
def str_lt (a b : String) : Bool := chars_lt a.data b.data

/-- Non-strict code-point lexicographic comparison. -/
def chars_le : List Char → List Char → Bool
  | [], _ => true
  | _ :: _, [] => false
  | a :: as, b :: bs =>
    if a.toNat < b.toNat then true
    else if b.toNat < a.toNat then false
    else chars_le as bs

/-- `a <= b` on strings (code-point lexicographic). -/
def str_le (a b : String) : Bool := chars_le a.data b.data

/-- `database.get_candle_at_time`: `SELECT * FROM candle_tf WHERE
symbol = ? AND time = ?`, `fetchone`. -/
def get_candle_at_time (tbl : List Candle) (symbol time_str : String) :
    Option Candle :=
  (tbl.filter (fun c => c.symbol = symbol ∧ c.time = time_str)).head?

/-- `database.get_subsequent_candles` (no limit): `SELECT * FROM
candle_tf WHERE symbol = ? AND time > ? ORDER BY time ASC`. -/
def get_subsequent_candles (tbl : List Candle) (symbol start_time : String) :
    List Candle :=
  List.insertionSort (fun a b => str_le a.time b.time = true)
    (tbl.filter (fun c => c.symbol = symbol ∧ str_lt start_time c.time = true))

/-- The caller-supplied entry data (`entry_data` dict).  The spec's
EntrySpec: day and open time as display strings, direction tag, plus the
free-form classification tags carried through to outcomes.  An absent
Python key is modelled by the empty string (both are falsy where the
code tests them). -/
structure EntryData where
  day : String
  OpenTime : String
  position : String
  H4 : String
  H1 : String
  M15 : String
  EntryPoint : String
deriving DecidableEq, Repr

/-- One simulation outcome row appended to `results` by
`backtest_trade` (the `entry_result` dict).  The `**entry_data` spread
carries the classification tags of the entry; the remaining keys are set
explicitly by the code. -/
structure Outcome where
  position : String
  H4 : String
  H1 : String
  M15 : String
  EntryPoint : String
  session : String
  StoplossSize : ℚ
  TradeRatio : String
  Closeday : String
  CloseTime : String
  Result : TradeResult
  StartDatetime : String
  EndDatetime : String
  duration_hours : ℚ
deriving DecidableEq, Repr

/-- The forward candle scan of one (stop-loss size, ratio) pair
(`backtest_trade` lines 110–131): walk the candles in order; for Buy
test `high >= take_profit` then `low <= stop_loss`, for any other
position (the code's `else`, i.e. Sell) test `low <= take_profit` then
`high >= stop_loss`; stop at the first candle where either holds and
return the status together with that candle's `time` string. -/
def scan_candles (position : String) (take_profit stop_loss : ℚ) :
    List Candle → Option (TradeResult × String)
  | [] => none
  | c :: rest =>
    if position = "Buy" then
      if c.high ≥ take_profit then some (TradeResult.Winning, c.time)
      else if c.low ≤ stop_loss then some (TradeResult.Losing, c.time)
      else scan_candles position take_profit stop_loss rest
    else
      if c.low ≤ take_profit then some (TradeResult.Winning, c.time)
      else if c.high ≥ stop_loss then some (TradeResult.Losing, c.time)
      else scan_candles position take_profit stop_loss rest

/-- Take-profit price (`backtest_trade` lines 96–101): for Buy
`open + stop_distance * ratio`, otherwise `open - stop_distance * ratio`. -/
def take_profit_price (position : String) (openv stop_dist ratio : ℚ) : ℚ :=
  if position = "Buy" then openv + stop_dist * ratio else openv - stop_dist * ratio

/-- Stop-loss price (`backtest_trade` lines 96–101): for Buy
`open - stop_distance`, otherwise `open + stop_distance`. -/
def stop_loss_price (position : String) (openv stop_dist : ℚ) : ℚ :=
  if position = "Buy" then openv - stop_dist else openv + stop_dist

/-- Python `str` of a config number as it appears in the
`f"1:{ratio}"` label: integers render without a decimal point,
non-integral rationals as `toString` (the config lists hold plain
numbers such as `2` or `1.5`). -/
def format_ratio (q : ℚ) : String :=
  if q.den = 1 then toString q.num else toString q

/-- Simulation of one (stop-loss size, ratio) pair: the body of the
inner loop of `backtest_trade` (lines 94–182).  Returns `none` when the
triggering candle's timestamp fails to parse (Python: `ValueError`
caught by the top-level handler, whole call returns `None`). -/
def simulate_pair (tbl : List Candle) (symbol : String) (entry : EntryData)
    (start : DT) (db_time session : String) (openv ratiopips : ℚ)
    (stoploss_size ratio : ℚ) : Option Outcome :=
  let stoploss_p := stoploss_size * ratiopips
  let tp := take_profit_price entry.position openv stoploss_p ratio
  let sl := stop_loss_price entry.position openv stoploss_p
  let subs := get_subsequent_candles tbl symbol db_time
  match scan_candles entry.position tp sl subs with
  | some (status, ctime) =>
    match parse_db_datetime ctime with
    | none => none
    | some closeDT =>
      let duration := py_round1
        (((dt_to_secs closeDT - dt_to_secs start : ℤ) : ℚ) / 3600)
      some
        { position := entry.position, H4 := entry.H4, H1 := entry.H1
          M15 := entry.M15, EntryPoint := entry.EntryPoint
          session := session, StoplossSize := stoploss_size
          TradeRatio := "1:" ++ format_ratio ratio
          Closeday := format_display_date closeDT
          CloseTime := format_display_time closeDT
          Result := status
          StartDatetime := format_datetime_minute start
          EndDatetime := format_datetime_minute closeDT
          duration_hours := duration }
  | none =>
    some
      { position := entry.position, H4 := entry.H4, H1 := entry.H1
        M15 := entry.M15, EntryPoint := entry.EntryPoint
        session := session, StoplossSize := stoploss_size
        TradeRatio := "1:" ++ format_ratio ratio
        Closeday := "N/A", CloseTime := "N/A"
        Result := TradeResult.Inconclusive
        StartDatetime := format_datetime_minute start
        EndDatetime := "N/A", duration_hours := 0 }

/-- Inner `for ratio in trade_ratios` loop: append one outcome per
ratio, aborting the whole simulation on the first failure. -/
def for_ratios (f : ℚ → Option Outcome) : List ℚ → Option (List Outcome)
  | [] => some []
  | r :: rest => do
    let o ← f r
    let os ← for_ratios f rest
    pure (o :: os)

/-- Outer `for stoploss_size in stoploss_sizes` loop over the inner
ratio loop. -/
def for_pairs (f : ℚ → ℚ → Option Outcome) (ratios : List ℚ) :
    List ℚ → Option (List Outcome)
  | [] => some []
  | sl :: rest => do
    let block ← for_ratios (f sl) ratios
    let os ← for_pairs f ratios rest
    pure (block ++ os)

/-- `backtest.backtest_trade`, the Trade Simulator.  Parameters
`stoploss_sizes`, `trade_ratios` and `ratiopips` are the values the
code resolves from `entry_data`/config (lines 47–52, 80–81); the unused
`ratio_pips` pip multiplier of line 48 has no effect and is omitted.
Any failure (unparsable day/time, no candle at the entry timestamp,
falsy position, or an exception while processing a pair) returns `None`
— the same `None` in every case.  Persistence (`insert_trading_entry`)
is a side effect that never alters the returned list and is not
modelled. -/
def backtest_trade (tbl : List Candle) (symbol : String) (entry : EntryData)
    (stoploss_sizes trade_ratios : List ℚ) (ratiopips : ℚ) :
    Option (List Outcome) :=
  match combine_date_and_time entry.day entry.OpenTime with
  | none => none
  | some start =>
    let db_time := format_datetime_for_db start
    let session := get_session_for_time (dt_time_secs start)
    match get_candle_at_time tbl symbol db_time with
    | none => none
    | some candle =>
      if entry.position = "" then none
      else
        for_pairs
          (simulate_pair tbl symbol entry start db_time session
            candle.openP ratiopips)
          trade_ratios stoploss_sizes

deriving instance DecidableEq for Except

/-- Per-group aggregate record `{'total': .., 'wins': .., 'win_rate': ..}`. -/
structure GroupStats where
  total : ℕ
  wins : ℕ
  win_rate : ℚ
deriving DecidableEq, Repr

/-- One grouping update on a Python dict modelled as an
insertion-ordered association list: a new key is appended at the end,
an existing key is updated in place (the `if key not in d: d[key] = init`
/ `d[key]['total'] += 1` pattern of `summarize_backtest_results`). -/
def upd_group {κ : Type} [DecidableEq κ] (k : κ) (isWin : Bool) :
    List (κ × GroupStats) → List (κ × GroupStats)
  | [] => [(k, ⟨1, if isWin then 1 else 0, 0⟩)]
  | (k', s) :: rest =>
    if k = k' then
      (k', ⟨s.total + 1, s.wins + (if isWin then 1 else 0), s.win_rate⟩) :: rest
    else (k', s) :: upd_group k isWin rest

/-- A guarded grouping update (`if tag and tag not in d: ...` /
`if tag: d[tag][...] += 1`): skipped entirely when the tag value is
falsy (absent key or empty string). -/
def upd_tagged (tag : String) (isWin : Bool)
    (m : List (String × GroupStats)) : List (String × GroupStats) :=
  if tag ≠ "" then upd_group tag isWin m else m

/-- The seven grouping dicts built by the result loop of
`summarize_backtest_results`. -/
structure Groups where
  by_stoploss : List (ℚ × GroupStats)
  by_ratio : List (String × GroupStats)
  by_session : List (String × GroupStats)
  by_h4 : List (String × GroupStats)
  by_h1 : List (String × GroupStats)
  by_m15 : List (String × GroupStats)
  by_entry_point : List (String × GroupStats)
deriving DecidableEq, Repr

/-- All-empty grouping dicts. -/
def empty_groups : Groups := ⟨[], [], [], [], [], [], []⟩

/-- Body of the `for result in results` grouping loop
(`summarize_backtest_results` lines 269–332): `continue` on
Inconclusive, unguarded updates for stop-loss size / trade ratio /
session, truthiness-guarded updates for H4 / H1 / M15 / entry point. -/
def update_groups (g : Groups) (o : Outcome) : Groups :=
  if o.Result = TradeResult.Inconclusive then g
  else
    let w := o.Result = TradeResult.Winning
    { by_stoploss := upd_group o.StoplossSize w g.by_stoploss
      by_ratio := upd_group o.TradeRatio w g.by_ratio
      by_session := upd_group o.session w g.by_session
      by_h4 := upd_tagged o.H4 w g.by_h4
      by_h1 := upd_tagged o.H1 w g.by_h1
      by_m15 := upd_tagged o.M15 w g.by_m15
      by_entry_point := upd_tagged o.EntryPoint w g.by_entry_point }

/-- Final pass setting each group's `win_rate = wins / total * 100`
(0 when total is 0). -/
def finalize_rates {κ : Type} (m : List (κ × GroupStats)) :
    List (κ × GroupStats) :=
  m.map (fun p =>
    (p.1, { p.2 with win_rate :=
      if 0 < p.2.total then (p.2.wins : ℚ) / (p.2.total : ℚ) * 100 else 0 }))

/-- The summary dict returned by `summarize_backtest_results`. -/
structure Summary where
  total_trades : ℕ
  winning_trades : ℕ
  losing_trades : ℕ
  inconclusive_trades : ℕ
  win_rate : ℚ
  average_duration : ℚ
  by_stoploss : List (ℚ × GroupStats)
  by_ratio : List (String × GroupStats)
  by_session : List (String × GroupStats)
  by_h4 : List (String × GroupStats)
  by_h1 : List (String × GroupStats)
  by_m15 : List (String × GroupStats)
  by_entry_point : List (String × GroupStats)
deriving DecidableEq, Repr

/-- `backtest.summarize_backtest_results`, the Statistics Aggregator. -/
def summarize_backtest_results (results : List Outcome) : Summary :=
  if results = [] then
    ⟨0, 0, 0, 0, 0, 0, [], [], [], [], [], [], []⟩
  else
    let total := results.length
    let w := results.countP (fun r => r.Result == TradeResult.Winning)
    let l := results.countP (fun r => r.Result == TradeResult.Losing)
    let inc := results.countP (fun r => r.Result == TradeResult.Inconclusive)
    let win_rate : ℚ :=
      if 0 < w + l then ((w : ℚ) / ((w : ℚ) + (l : ℚ))) * 100 else 0
    let durations := (results.filter (fun r =>
      r.Result ≠ TradeResult.Inconclusive ∧ 0 < r.duration_hours)).map
      (fun r => r.duration_hours)
    let avg := if durations ≠ [] then durations.sum / (durations.length : ℚ)
      else 0
    let g := results.foldl update_groups empty_groups
    ⟨total, w, l, inc, win_rate, avg,
      finalize_rates g.by_stoploss, finalize_rates g.by_ratio,
      finalize_rates g.by_session, finalize_rates g.by_h4,
      finalize_rates g.by_h1, finalize_rates g.by_m15,
      finalize_rates g.by_entry_point⟩

/-- The decimal fragment of Python `float(str)`: optional sign, then
digits with an optional decimal point (`"2"`, `"1.5"`, `".5"`, `"5."`).
Scientific notation, `inf`/`nan` and surrounding whitespace are omitted
— no ratio label in this repository uses them.  Failure models the
`ValueError` the call raises on a non-numeric string. -/
def py_float_unsigned (cs : List Char) : Option ℚ :=
  let intp := cs.takeWhile Char.isDigit
  let rest := cs.dropWhile Char.isDigit
  match rest with
  | [] => if intp = [] then none else some (digits_val intp : ℚ)
  | '.' :: frac =>
    if frac.all Char.isDigit ∧ (intp ≠ [] ∨ frac ≠ []) then
      some ((digits_val intp : ℚ) + (digits_val frac : ℚ) / 10 ^ frac.length)
    else none
  | _ => none

/-- Python `float` on a character list (decimal fragment, see
`py_float_unsigned`). -/
def py_float_chars (s : List Char) : Except Unit ℚ :=
  match s with
  | '+' :: rest =>
    match py_float_unsigned rest with
    | some q => Except.ok q
    | none => Except.error ()
  | '-' :: rest =>
    match py_float_unsigned rest with
    | some q => Except.ok (-q)
    | none => Except.error ()
  | cs =>
    match py_float_unsigned cs with
    | some q => Except.ok q
    | none => Except.error ()

/-- The ratio extraction shared by `calculate_drawdown` and
`generate_equity_curve`:
`float(ratio_str.split(':')[1]) if ':' in ratio_str else 1`.
When `':'` occurs, the text after the first `':'` goes through
`float(...)`, which raises on a non-numeric string — only the
no-colon case defaults to 1. -/
def parse_ratio (s : String) : Except Unit ℚ :=
  if ':' ∈ s.data then py_float_chars ((split_char ':' s.data).getD 1 [])
  else Except.ok 1

/-- One point of the equity curve (`equity_data.append` dict). -/
structure EquityPoint where
  datetime : String
  balance : ℚ
  trade_result : TradeResult
  position : String
  stoploss : ℚ
  ratio : String
deriving DecidableEq, Repr

/-- Sort outcomes ascending by `StartDatetime`
(`sorted(results, key=lambda x: x.get('StartDatetime', ''))`; Python's
sort is stable, as is insertion sort with `≤` on the key). -/
def sort_by_start (rs : List Outcome) : List Outcome :=
  List.insertionSort
    (fun a b => str_le a.StartDatetime b.StartDatetime = true) rs

/-- Loop body of `generate_equity_curve` (lines 461–487): skip
Inconclusive, parse the ratio (may raise), update the balance
(+2·ratio on Winning, −2 otherwise), append a point carrying the new
balance. -/
def equity_step (acc : ℚ × List EquityPoint) (o : Outcome) :
    Except Unit (ℚ × List EquityPoint) :=
  if o.Result = TradeResult.Inconclusive then Except.ok acc
  else do
    let r ← parse_ratio o.TradeRatio
    let bal := if o.Result = TradeResult.Winning then acc.1 + 2 * r
      else acc.1 - 2
    Except.ok (bal, acc.2 ++ [⟨o.EndDatetime, bal, o.Result, o.position,
      o.StoplossSize, o.TradeRatio⟩])

/-- `backtest.generate_equity_curve`: sort by start time, fold the
balance from 100.  The pandas DataFrame is modelled as the row list;
`Except.error` models an uncaught `ValueError` from the ratio parse. -/
def generate_equity_curve (results : List Outcome) :
    Except Unit (List EquityPoint) :=
  Except.map (fun p => p.2)
    ((sort_by_start results).foldlM equity_step (100, []))

/-- One recorded drawdown period (`drawdown_periods.append` dict;
`end` is a Lean keyword, so the field is named `endT`). -/
structure DrawdownPeriod where
  start : Option String
  endT : String
  depth : ℚ
  recovery_trades : ℕ
deriving DecidableEq, Repr

/-- Mutable state of the `calculate_drawdown` loop. -/
structure DDState where
  balance : ℚ
  peak_balance : ℚ
  current_drawdown : ℚ
  max_drawdown : ℚ
  max_drawdown_start : Option String
  max_drawdown_end : Option String
  drawdown_periods : List DrawdownPeriod
deriving DecidableEq, Repr

/-- Loop body of `calculate_drawdown` (lines 392–433), a literal
transcription: balance update, peak/period bookkeeping, drawdown
recomputation, running-max update. -/
def drawdown_step (s : DDState) (o : Outcome) : Except Unit DDState :=
  if o.Result = TradeResult.Inconclusive then Except.ok s
  else do
    let r ← parse_ratio o.TradeRatio
    let bal := if o.Result = TradeResult.Winning then s.balance + 2 * r
      else s.balance - 2
    let s1 :=
      if s.peak_balance < bal then
        if 0 < s.current_drawdown then
          { s with balance := bal, peak_balance := bal
                   drawdown_periods := s.drawdown_periods ++
                     [⟨s.max_drawdown_start, o.EndDatetime,
                       s.current_drawdown, 1⟩]
                   current_drawdown := 0
                   max_drawdown_start := none }
        else { s with balance := bal, peak_balance := bal }
      else { s with balance := bal }
    let dd := (s1.peak_balance - s1.balance) / s1.peak_balance * 100
    let s2 := { s1 with current_drawdown := dd }
    if s2.max_drawdown < dd then
      Except.ok { s2 with
        max_drawdown := dd
        max_drawdown_start :=
          match s2.max_drawdown_start with
          | none => some o.StartDatetime
          | some v => some v
        max_drawdown_end := some o.EndDatetime }
    else Except.ok s2

/-- The dict returned by `calculate_drawdown`. -/
structure DrawdownResult where
  max_drawdown_percent : ℚ
  max_drawdown_start : Option String
  max_drawdown_end : Option String
  final_balance : ℚ
  peak_balance : ℚ
  drawdown_periods : List DrawdownPeriod
deriving DecidableEq, Repr

/-- `backtest.calculate_drawdown`: sort by start time, run the loop from
balance = peak = 100; `Except.error` models an uncaught `ValueError`
from the ratio parse. -/
def calculate_drawdown (results : List Outcome) :
    Except Unit DrawdownResult :=
  Except.map
    (fun s => ⟨s.max_drawdown, s.max_drawdown_start, s.max_drawdown_end,
      s.balance, s.peak_balance, s.drawdown_periods⟩)
    ((sort_by_start results).foldlM drawdown_step ⟨100, 100, 0, 0, none, none, []⟩)

/-- The take-profit touch condition tested first on each candle:
Buy `high >= take_profit`, otherwise `low <= take_profit`. -/
def tp_hit (position : String) (take_profit : ℚ) (c : Candle) : Prop :=
  if position = "Buy" then take_profit ≤ c.high else c.low ≤ take_profit

/-- The stop-loss touch condition tested second:
Buy `low <= stop_loss`, otherwise `high >= stop_loss`. -/
def sl_hit (position : String) (stop_loss : ℚ) (c : Candle) : Prop :=
  if position = "Buy" then c.low ≤ stop_loss else stop_loss ≤ c.high

instance (p : String) (tp : ℚ) (c : Candle) : Decidable (tp_hit p tp c) := by
  unfold tp_hit; infer_instance

instance (p : String) (sl : ℚ) (c : Candle) : Decidable (sl_hit p sl c) := by
  unfold sl_hit; infer_instance

/-- Total number of outcomes counted into a grouping dict (sum of the
per-key `total` fields). -/
def group_total {κ : Type} (m : List (κ × GroupStats)) : ℕ :=
  (m.map (fun p => p.2.total)).sum

/-- The per-outcome update a single guarded tag group undergoes in the
result loop: skip Inconclusive, skip an empty tag value, else count. -/
def tag_step (key : Outcome → String)
    (b : List (String × GroupStats)) (o : Outcome) :
    List (String × GroupStats) :=
  if o.Result = TradeResult.Inconclusive then b
  else upd_tagged (key o) (o.Result = TradeResult.Winning) b

/-- A counting step: add one per outcome satisfying `p`. -/
def count_step (p : Outcome → Bool) (n : ℕ) (o : Outcome) : ℕ :=
  if p o then n + 1 else n

/-- The reward ratio a balance update uses, with the no-colon default:
the value of `parse_ratio` when it succeeds, 1 otherwise. -/
def ratio_or_default (s : String) : ℚ :=
  match parse_ratio s with
  | Except.ok q => q
  | Except.error _ => 1

/-- The running maximum of `(peak − balance) / peak · 100` over a
sequence of outcomes under the fixed balance model (+2·ratio per win,
−2 per loss, Inconclusive skipped), the quantity the spec calls the
maximum drawdown. -/
def spec_max_drawdown : ℚ → ℚ → ℚ → List Outcome → ℚ
  | _, _, m, [] => m
  | bal, peak, m, o :: l =>
    if o.Result = TradeResult.Inconclusive then spec_max_drawdown bal peak m l
    else
      let bal' := if o.Result = TradeResult.Winning
        then bal + 2 * ratio_or_default o.TradeRatio else bal - 2
      let peak' := max peak bal'
      let dd := (peak' - bal') / peak' * 100
      spec_max_drawdown bal' peak' (max m dd) l

/-- `chars_le` is total. -/
theorem chars_le_total : ∀ as bs : List Char,
    chars_le as bs = true ∨ chars_le bs as = true := by
  intro as
  induction as with
  | nil => intro bs; left; simp [chars_le]
  | cons a as ih =>
    intro bs
    cases bs with
    | nil => right; simp [chars_le]
    | cons b bs =>
      simp only [chars_le]
      rcases Nat.lt_trichotomy a.toNat b.toNat with h | h | h
      · left; simp [h]
      · have h1 : ¬ a.toNat < b.toNat := by omega
        have h2 : ¬ b.toNat < a.toNat := by omega
        rcases ih bs with hle | hle
        · left; simp [h1, h2, hle]
        · right; simp [h1, h2, hle]
      · right; simp [h, Nat.lt_asymm h]

/-- `chars_le` is transitive. -/
theorem chars_le_trans : ∀ as bs cs : List Char,
    chars_le as bs = true → chars_le bs cs = true → chars_le as cs = true := by
  intro as
  induction as with
  | nil => intro bs cs _ _; simp [chars_le]
  | cons a as ih =>
    intro bs cs hab hbc
    cases bs with
    | nil => simp [chars_le] at hab
    | cons b bs =>
      cases cs with
      | nil => simp [chars_le] at hbc
      | cons c cs =>
        simp only [chars_le] at hab hbc ⊢
        have hba : ¬ b.toNat < a.toNat := by
          intro k
          rw [if_neg (by omega), if_pos k] at hab
          simp at hab
        have hcb : ¬ c.toNat < b.toNat := by
          intro k
          rw [if_neg (by omega), if_pos k] at hbc
          simp at hbc
        by_cases h : a.toNat < c.toNat
        · simp [h]
        · rw [if_neg h, if_neg (by omega)]
          rw [if_neg (by omega), if_neg (by omega)] at hab
          rw [if_neg (by omega), if_neg (by omega)] at hbc
          exact ih bs cs hab hbc

/-- C1.  The candle list scanned for each (stop-loss, ratio) pair is in
ascending time order, and the scan resolves at the first candle where
either exit condition holds, returning that candle's timestamp; the
take-profit condition is tested before the stop-loss condition on every
candle (for Buy `high ≥ takeProfit` before `low ≤ stopLoss`, for Sell
`low ≤ takeProfit` before `high ≥ stopLoss`), so a candle touching both
yields Winning, never Losing. -/
theorem scan_first_trigger_priority :
    (∀ tbl sym t, (get_subsequent_candles tbl sym t).Pairwise
        (fun a b => str_le a.time b.time = true))
    ∧ (∀ pos tp sl (cs : List Candle) (k : ℕ) (hk : k < cs.length),
        (tp_hit pos tp (cs.get ⟨k, hk⟩) ∨ sl_hit pos sl (cs.get ⟨k, hk⟩)) →
        (∀ j (hj : j < k),
          ¬ (tp_hit pos tp (cs.get ⟨j, lt_trans hj hk⟩) ∨
             sl_hit pos sl (cs.get ⟨j, lt_trans hj hk⟩))) →
        scan_candles pos tp sl cs =
          some ((if tp_hit pos tp (cs.get ⟨k, hk⟩) then TradeResult.Winning
                 else TradeResult.Losing), (cs.get ⟨k, hk⟩).time)) := by
  constructor
  · intro tbl sym t
    haveI : IsTotal Candle (fun a b => str_le a.time b.time = true) :=
      ⟨fun a b => chars_le_total a.time.data b.time.data⟩
    haveI : IsTrans Candle (fun a b => str_le a.time b.time = true) :=
      ⟨fun a b c => chars_le_trans a.time.data b.time.data c.time.data⟩
    exact List.sorted_insertionSort _ _
  · intro pos tp sl cs
    induction cs with
    | nil => intro k hk; exact absurd hk (by simp)
    | cons c rest ih =>
      intro k hk htrig hbef
      cases k with
      | zero =>
        simp only [List.get] at htrig ⊢
        by_cases hb : pos = "Buy"
        · by_cases htp : tp ≤ c.high
          · simp [scan_candles, tp_hit, hb, htp]
          · have hsl : c.low ≤ sl := by
              rcases htrig with h | h
              · exact absurd (by simpa [tp_hit, hb] using h) htp
              · simpa [sl_hit, hb] using h
            simp [scan_candles, tp_hit, hb, htp, hsl]
        · by_cases htp : c.low ≤ tp
          · simp [scan_candles, tp_hit, hb, htp]
          · have hsl : sl ≤ c.high := by
              rcases htrig with h | h
              · exact absurd (by simpa [tp_hit, hb] using h) htp
              · simpa [sl_hit, hb] using h
            simp [scan_candles, tp_hit, hb, htp, hsl]
      | succ k' =>
        have hnot := hbef 0 (Nat.succ_pos k')
        push_neg at hnot
        have hstep : scan_candles pos tp sl (c :: rest) =
            scan_candles pos tp sl rest := by
          obtain ⟨h1, h2⟩ := hnot
          by_cases hb : pos = "Buy"
          · simp [tp_hit, hb] at h1
            simp [sl_hit, hb] at h2
            simp [scan_candles, hb, not_le.mpr h1, not_le.mpr h2]
          · simp [tp_hit, hb] at h1
            simp [sl_hit, hb] at h2
            simp [scan_candles, hb, not_le.mpr h1, not_le.mpr h2]
        rw [hstep]
        have hk' : k' < rest.length := by
          simpa [Nat.succ_lt_succ_iff] using hk
        have := ih k' hk' (by simpa using htrig)
          (fun j hj => by simpa using hbef (j + 1) (Nat.succ_lt_succ hj))
        simpa using this

/-- Witness for C1: the spec §8 scenario (Long, open 1.2000, stop-loss
20 pips, ratio 2) — the second candle is the first trigger and wins —
and a Sell candle touching both levels at once resolves Winning. -/
theorem scan_first_trigger_priority_witness :
    scan_candles "Buy" (1208/1000) (1196/1000)
        [⟨"E", "t1", 0, 1205/1000, 1199/1000, 0⟩,
         ⟨"E", "t2", 0, 1209/1000, 1200/1000, 0⟩] =
      some (TradeResult.Winning, "t2") ∧
    scan_candles "Sell" (1150/1000) (1250/1000)
        [⟨"E", "t3", 0, 1260/1000, 1100/1000, 0⟩] =
      some (TradeResult.Winning, "t3") := by
  constructor
  · have h := scan_first_trigger_priority.2 "Buy" (1208/1000) (1196/1000)
      [⟨"E", "t1", 0, 1205/1000, 1199/1000, 0⟩,
       ⟨"E", "t2", 0, 1209/1000, 1200/1000, 0⟩] 1 (by norm_num)
      (by left; simp only [tp_hit, List.get]; norm_num)
      (by
        intro j hj
        interval_cases j
        simp only [tp_hit, sl_hit, List.get]
        norm_num)
    norm_num [tp_hit] at h ⊢
    exact h
  · have h := scan_first_trigger_priority.2 "Sell" (1150/1000) (1250/1000)
      [⟨"E", "t3", 0, 1260/1000, 1100/1000, 0⟩] 0 (by norm_num)
      (by left; simp only [tp_hit, List.get]; norm_num)
      (by intro j hj; omega)
    norm_num [tp_hit] at h ⊢
    exact h

/-- C10.  The three fixed session windows cover the whole 24-hour
clock: for every time of day (seconds since midnight),
`get_session_for_time` returns London, Tokyo or New York — the
`"Unknown"` fallback branch is unreachable. -/
theorem session_covers_clock (t : ℕ) (h : t < 86400) :
    get_session_for_time t = "London" ∨ get_session_for_time t = "Tokyo" ∨
      get_session_for_time t = "New York" := by
  unfold get_session_for_time
  split_ifs with h1 h2 h3
  · exact Or.inl rfl
  · exact Or.inr (Or.inl rfl)
  · exact Or.inr (Or.inr rfl)
  · omega

/-- Witness for C10 at 12:00:00 (43200 s). -/
theorem session_covers_clock_witness :
    get_session_for_time 43200 = "London" ∨
      get_session_for_time 43200 = "Tokyo" ∨
      get_session_for_time 43200 = "New York" :=
  session_covers_clock 43200 (by norm_num)

/-- The inner ratio loop produces one outcome per ratio, in order. -/
theorem for_ratios_eq_some {f : ℚ → Option Outcome} :
    ∀ {rs : List ℚ} {os : List Outcome}, for_ratios f rs = some os →
      os.length = rs.length ∧
      ∀ j (hj : j < rs.length) (hj' : j < os.length),
        f (rs.get ⟨j, hj⟩) = some (os.get ⟨j, hj'⟩) := by
  intro rs
  induction rs with
  | nil =>
    intro os h
    simp [for_ratios] at h
    subst h
    exact ⟨rfl, fun j hj => absurd hj (by simp)⟩
  | cons r rest ih =>
    intro os h
    simp only [for_ratios, Option.bind_eq_bind] at h
    cases hfo : f r with
    | none => rw [hfo] at h; simp at h
    | some o =>
      rw [hfo] at h
      cases hrec : for_ratios f rest with
      | none => rw [hrec] at h; simp at h
      | some os' =>
        rw [hrec] at h
        simp at h
        subst h
        obtain ⟨hlen, helt⟩ := ih hrec
        refine ⟨by simp [hlen], ?_⟩
        intro j hj hj'
        cases j with
        | zero => simpa using hfo
        | succ j' =>
          simpa using helt j' (by simpa [Nat.succ_lt_succ_iff] using hj)
            (by simpa [Nat.succ_lt_succ_iff, hlen] using hj)


/-- The nested pair loop produces one outcome per (stop-loss, ratio)
pair, in stop-loss-outer / ratio-inner order: the outcome of pair
`(i, j)` sits at flat index `i * |ratios| + j`. -/
theorem for_pairs_eq_some {f : ℚ → ℚ → Option Outcome} {ratios : List ℚ} :
    ∀ {sls : List ℚ} {os : List Outcome}, for_pairs f ratios sls = some os →
      os.length = sls.length * ratios.length ∧
      ∀ i j (hi : i < sls.length) (hj : j < ratios.length)
        (hidx : i * ratios.length + j < os.length),
        f (sls.get ⟨i, hi⟩) (ratios.get ⟨j, hj⟩) =
          some (os.get ⟨i * ratios.length + j, hidx⟩) := by
  intro sls
  induction sls with
  | nil =>
    intro os h
    simp [for_pairs] at h
    subst h
    exact ⟨by simp, fun i j hi => absurd hi (by simp)⟩
  | cons sl rest ih =>
    intro os h
    simp only [for_pairs, Option.bind_eq_bind] at h
    cases hblk : for_ratios (f sl) ratios with
    | none => rw [hblk] at h; simp at h
    | some block =>
      rw [hblk] at h
      cases hrec : for_pairs f ratios rest with
      | none => rw [hrec] at h; simp at h
      | some os' =>
        rw [hrec] at h
        simp at h
        subst h
        obtain ⟨hblen, hbelt⟩ := for_ratios_eq_some hblk
        obtain ⟨hlen, helt⟩ := ih hrec
        refine ⟨by simp [hblen, hlen, Nat.succ_mul, Nat.add_comm], ?_⟩
        intro i j hi hj hidx
        cases i with
        | zero =>
          have hj' : j < block.length := by omega
          have : (block ++ os').get ⟨0 * ratios.length + j, hidx⟩ =
              block.get ⟨j, hj'⟩ := by
            simp [List.getElem_append_left, hj']
          rw [this]
          simpa using hbelt j hj hj'
        | succ i' =>
          have hi' : i' < rest.length := by simpa [Nat.succ_lt_succ_iff] using hi
          have hle : block.length ≤ (i' + 1) * ratios.length + j := by
            rw [hblen, Nat.succ_mul]
            omega
          have hidx' : i' * ratios.length + j < os'.length := by
            simp only [List.length_append, hblen] at hidx
            rw [Nat.succ_mul] at hidx
            omega
          have : (block ++ os').get ⟨(i' + 1) * ratios.length + j, hidx⟩ =
              os'.get ⟨(i' + 1) * ratios.length + j - block.length, by
                simp only [List.length_append] at hidx; omega⟩ := by
            simp [List.getElem_append_right, hle]
          rw [this]
          have harith : (i' + 1) * ratios.length + j - block.length =
              i' * ratios.length + j := by
            rw [hblen, Nat.succ_mul]; omega
          have := helt i' j hi' hj hidx'
          simpa [harith] using this

/-- The scan only ever reports Winning or Losing, never Inconclusive. -/
theorem scan_candles_ne_inconclusive (pos : String) (tp sl : ℚ) :
    ∀ cs t, scan_candles pos tp sl cs ≠ some (TradeResult.Inconclusive, t) := by
  intro cs
  induction cs with
  | nil => intro t h; simp [scan_candles] at h
  | cons c rest ih =>
    intro t h
    rcases eq_or_ne pos "Buy" with hb | hb
    · subst hb
      simp only [scan_candles, if_pos rfl] at h
      split_ifs at h
      all_goals first
        | (exact ih t h)
        | (simp at h)
    · simp only [scan_candles, if_neg hb] at h
      split_ifs at h
      all_goals first
        | (exact ih t h)
        | (simp at h)

/-- The timestamp the scan reports belongs to one of the scanned
candles. -/
theorem scan_candles_time_mem (pos : String) (tp sl : ℚ) :
    ∀ cs st t, scan_candles pos tp sl cs = some (st, t) →
      ∃ c ∈ cs, c.time = t := by
  intro cs
  induction cs with
  | nil => intro st t h; simp [scan_candles] at h
  | cons c rest ih =>
    intro st t h
    rcases eq_or_ne pos "Buy" with hb | hb
    · subst hb
      simp only [scan_candles, if_pos rfl] at h
      split_ifs at h
      all_goals first
        | (exact ⟨c, by simp, by simp at h; exact h.2⟩)
        | (obtain ⟨c', hc', ht⟩ := ih st t h
           exact ⟨c', by simp [hc'], ht⟩)
    · simp only [scan_candles, if_neg hb] at h
      split_ifs at h
      all_goals first
        | (exact ⟨c, by simp, by simp at h; exact h.2⟩)
        | (obtain ⟨c', hc', ht⟩ := ih st t h
           exact ⟨c', by simp [hc'], ht⟩)

/-- A candle returned by the subsequent-candles query is a row of the
table. -/
theorem mem_of_mem_subsequent {tbl : List Candle} {sym t : String}
    {c : Candle} (h : c ∈ get_subsequent_candles tbl sym t) : c ∈ tbl := by
  unfold get_subsequent_candles at h
  rw [List.mem_insertionSort] at h
  exact (List.mem_filter.mp h).1

/-- Fields every outcome produced by `simulate_pair` carries: its
stop-loss size and ratio label identify the pair, the session and start
time come from the entry, and an Inconclusive outcome has zero duration
and the `N/A` sentinels. -/
theorem simulate_pair_some_fields {tbl : List Candle} {sym : String}
    {entry : EntryData} {start : DT} {db session : String} {openv pips sl r : ℚ}
    {o : Outcome}
    (h : simulate_pair tbl sym entry start db session openv pips sl r = some o) :
    o.StoplossSize = sl ∧ o.TradeRatio = "1:" ++ format_ratio r ∧
    o.session = session ∧ o.StartDatetime = format_datetime_minute start ∧
    (o.Result = TradeResult.Inconclusive →
      o.duration_hours = 0 ∧ o.Closeday = "N/A" ∧ o.CloseTime = "N/A" ∧
      o.EndDatetime = "N/A") ∧
    (o.Result = TradeResult.Inconclusive ↔
      scan_candles entry.position
        (take_profit_price entry.position openv (sl * pips) r)
        (stop_loss_price entry.position openv (sl * pips))
        (get_subsequent_candles tbl sym db) = none) := by
  unfold simulate_pair at h
  dsimp only at h
  cases hscan : scan_candles entry.position
      (take_profit_price entry.position openv (sl * pips) r)
      (stop_loss_price entry.position openv (sl * pips))
      (get_subsequent_candles tbl sym db) with
  | none =>
    rw [hscan] at h
    simp only [Option.some_inj] at h
    subst h
    refine ⟨rfl, rfl, rfl, rfl, fun _ => ⟨rfl, rfl, rfl, rfl⟩, by simp⟩
  | some p =>
    obtain ⟨st, t⟩ := p
    rw [hscan] at h
    dsimp only at h
    cases hp : parse_db_datetime t with
    | none => rw [hp] at h; simp at h
    | some closeDT =>
      rw [hp] at h
      dsimp only at h
      simp only [Option.some_inj] at h
      subst h
      have hne : st ≠ TradeResult.Inconclusive := by
        intro hst
        exact scan_candles_ne_inconclusive _ _ _ _ t (hst ▸ hscan)
      refine ⟨rfl, rfl, rfl, rfl, fun hst => absurd hst hne, ?_⟩
      simp [hne]

/-- Under a well-formed candle table (every row's timestamp parses),
`simulate_pair` always yields an outcome. -/
theorem simulate_pair_isSome {tbl : List Candle} {sym : String}
    {entry : EntryData} {start : DT} {db session : String} {openv pips sl r : ℚ}
    (hwf : ∀ c ∈ tbl, (parse_db_datetime c.time).isSome) :
    ∃ o, simulate_pair tbl sym entry start db session openv pips sl r = some o := by
  unfold simulate_pair
  dsimp only
  cases hscan : scan_candles entry.position
      (take_profit_price entry.position openv (sl * pips) r)
      (stop_loss_price entry.position openv (sl * pips))
      (get_subsequent_candles tbl sym db) with
  | none => exact ⟨_, rfl⟩
  | some p =>
    obtain ⟨st, t⟩ := p
    obtain ⟨c, hc, ht⟩ := scan_candles_time_mem _ _ _ _ _ _ hscan
    have : (parse_db_datetime t).isSome := ht ▸ hwf c (mem_of_mem_subsequent hc)
    cases hp : parse_db_datetime t with
    | none => rw [hp] at this; simp at this
    | some closeDT =>
      dsimp only
      rw [hp]
      exact ⟨_, rfl⟩

/-- The ratio loop succeeds when every iteration does. -/
theorem for_ratios_isSome {f : ℚ → Option Outcome} :
    ∀ {rs : List ℚ}, (∀ r ∈ rs, ∃ o, f r = some o) →
      ∃ os, for_ratios f rs = some os := by
  intro rs
  induction rs with
  | nil => intro _; exact ⟨[], rfl⟩
  | cons r rest ih =>
    intro h
    obtain ⟨o, ho⟩ := h r (by simp)
    obtain ⟨os, hos⟩ := ih (fun r' hr' => h r' (by simp [hr']))
    exact ⟨o :: os, by simp [for_ratios, ho, hos]⟩

/-- The pair loop succeeds when every pair does. -/
theorem for_pairs_isSome {f : ℚ → ℚ → Option Outcome} {ratios : List ℚ} :
    ∀ {sls : List ℚ}, (∀ sl ∈ sls, ∀ r ∈ ratios, ∃ o, f sl r = some o) →
      ∃ os, for_pairs f ratios sls = some os := by
  intro sls
  induction sls with
  | nil => intro _; exact ⟨[], rfl⟩
  | cons sl rest ih =>
    intro h
    obtain ⟨block, hblock⟩ := for_ratios_isSome (h sl (by simp))
    obtain ⟨os, hos⟩ := ih (fun sl' hsl' => h sl' (by simp [hsl']))
    exact ⟨block ++ os, by simp [for_pairs, hblock, hos]⟩

/-- Every outcome in the ratio loop's output comes from some ratio. -/
theorem for_ratios_mem {f : ℚ → Option Outcome} :
    ∀ {rs : List ℚ} {os : List Outcome}, for_ratios f rs = some os →
      ∀ o ∈ os, ∃ r ∈ rs, f r = some o := by
  intro rs
  induction rs with
  | nil =>
    intro os h o ho
    simp [for_ratios] at h
    subst h
    simp at ho
  | cons r rest ih =>
    intro os h o ho
    simp only [for_ratios, Option.bind_eq_bind] at h
    cases hfo : f r with
    | none => rw [hfo] at h; simp at h
    | some o' =>
      rw [hfo] at h
      cases hrec : for_ratios f rest with
      | none => rw [hrec] at h; simp at h
      | some os' =>
        rw [hrec] at h
        simp at h
        subst h
        rcases List.mem_cons.mp ho with hoe | hom
        · exact ⟨r, by simp, hoe ▸ hfo⟩
        · obtain ⟨r', hr', hfr'⟩ := ih hrec o hom
          exact ⟨r', by simp [hr'], hfr'⟩

/-- Every outcome in the pair loop's output comes from some pair. -/
theorem for_pairs_mem {f : ℚ → ℚ → Option Outcome} {ratios : List ℚ} :
    ∀ {sls : List ℚ} {os : List Outcome}, for_pairs f ratios sls = some os →
      ∀ o ∈ os, ∃ sl ∈ sls, ∃ r ∈ ratios, f sl r = some o := by
  intro sls
  induction sls with
  | nil =>
    intro os h o ho
    simp [for_pairs] at h
    subst h
    simp at ho
  | cons sl rest ih =>
    intro os h o ho
    simp only [for_pairs, Option.bind_eq_bind] at h
    cases hblk : for_ratios (f sl) ratios with
    | none => rw [hblk] at h; simp at h
    | some block =>
      rw [hblk] at h
      cases hrec : for_pairs f ratios rest with
      | none => rw [hrec] at h; simp at h
      | some os' =>
        rw [hrec] at h
        simp at h
        subst h
        rcases List.mem_append.mp ho with ho | ho
        · obtain ⟨r, hr, hfr⟩ := for_ratios_mem hblk o ho
          exact ⟨sl, by simp, r, hr, hfr⟩
        · obtain ⟨sl', hsl', r, hr, hfr⟩ := ih hrec o ho
          exact ⟨sl', by simp [hsl'], r, hr, hfr⟩

/-- C2.  For an entry whose day/time parse succeeds and for which an
M15 candle exists exactly at the entry timestamp (over a table whose
rows carry well-formed timestamps, and an entry with a direction set),
`backtest_trade` returns exactly one outcome per pair of
stoplossSizes × rewardRatios in stop-loss-outer / ratio-inner input
order; if the parse fails, or no candle exists at the entry timestamp,
it returns `None` — no partial list. -/
theorem backtest_trade_outcome_grid (tbl : List Candle) (symbol : String)
    (entry : EntryData) (sls ratios : List ℚ) (pips : ℚ)
    (hwf : ∀ c ∈ tbl, (parse_db_datetime c.time).isSome)
    (hpos : entry.position ≠ "") :
    (∀ start, combine_date_and_time entry.day entry.OpenTime = some start →
      (get_candle_at_time tbl symbol (format_datetime_for_db start)).isSome →
      ∃ results,
        backtest_trade tbl symbol entry sls ratios pips = some results ∧
        results.length = sls.length * ratios.length ∧
        ∀ i j (hi : i < sls.length) (hj : j < ratios.length)
          (hidx : i * ratios.length + j < results.length),
          (results.get ⟨i * ratios.length + j, hidx⟩).StoplossSize =
            sls.get ⟨i, hi⟩ ∧
          (results.get ⟨i * ratios.length + j, hidx⟩).TradeRatio =
            "1:" ++ format_ratio (ratios.get ⟨j, hj⟩)) ∧
    (combine_date_and_time entry.day entry.OpenTime = none →
      backtest_trade tbl symbol entry sls ratios pips = none) ∧
    (∀ start, combine_date_and_time entry.day entry.OpenTime = some start →
      get_candle_at_time tbl symbol (format_datetime_for_db start) = none →
      backtest_trade tbl symbol entry sls ratios pips = none) := by
  refine ⟨?_, ?_, ?_⟩
  · intro start hstart hcand
    unfold backtest_trade
    rw [hstart]
    dsimp only
    cases hc : get_candle_at_time tbl symbol (format_datetime_for_db start) with
    | none => rw [hc] at hcand; simp at hcand
    | some candle =>
      dsimp only
      rw [if_neg hpos]
      obtain ⟨results, hres⟩ := for_pairs_isSome
        (fun sl _ r _ => simulate_pair_isSome hwf)
      refine ⟨results, hres, (for_pairs_eq_some hres).1, ?_⟩
      intro i j hi hj hidx
      have helt := (for_pairs_eq_some hres).2 i j hi hj hidx
      obtain ⟨h1, h2, _⟩ := simulate_pair_some_fields helt
      exact ⟨h1, h2⟩
  · intro hnone
    unfold backtest_trade
    rw [hnone]
  · intro start hstart hc
    unfold backtest_trade
    rw [hstart]
    dsimp only
    rw [hc]

/-- Witness for C2: a one-pair grid on a two-candle table; the grid has
exactly 1 × 1 outcomes with the pair's stop-loss size and ratio label. -/
theorem backtest_trade_outcome_grid_witness :
    ∃ results,
      backtest_trade
        [⟨"EURUSD", "2024-02-01 10:00:00", 6/5, 6/5, 6/5, 6/5⟩,
         ⟨"EURUSD", "2024-02-01 10:15:00", 6/5, 121/100, 6/5, 6/5⟩]
        "EURUSD" ⟨"01/02/24", "10:00", "Buy", "", "", "", ""⟩
        [20] [2] (1/10000) = some results ∧
      results.length = [(20 : ℚ)].length * [(2 : ℚ)].length ∧
      ∀ i j (hi : i < [(20 : ℚ)].length) (hj : j < [(2 : ℚ)].length)
        (hidx : i * [(2 : ℚ)].length + j < results.length),
        (results.get ⟨i * [(2 : ℚ)].length + j, hidx⟩).StoplossSize =
          [(20 : ℚ)].get ⟨i, hi⟩ ∧
        (results.get ⟨i * [(2 : ℚ)].length + j, hidx⟩).TradeRatio =
          "1:" ++ format_ratio ([(2 : ℚ)].get ⟨j, hj⟩) :=
  (backtest_trade_outcome_grid
    [⟨"EURUSD", "2024-02-01 10:00:00", 6/5, 6/5, 6/5, 6/5⟩,
     ⟨"EURUSD", "2024-02-01 10:15:00", 6/5, 121/100, 6/5, 6/5⟩]
    "EURUSD" ⟨"01/02/24", "10:00", "Buy", "", "", "", ""⟩
    [20] [2] (1/10000) (by decide) (by decide)).1
    ⟨2024, 2, 1, 10, 0, 0⟩ (by decide) (by decide)

/-- C6.  In a successful simulation, every outcome whose terminal state
is Inconclusive has duration 0 and the `N/A` sentinel as its close day,
close time and end datetime; and the outcome of pair `(i, j)` is
Inconclusive exactly when that pair's candle scan is exhausted without
either exit condition triggering. -/
theorem inconclusive_outcome_sentinels (tbl : List Candle) (symbol : String)
    (entry : EntryData) (sls ratios : List ℚ) (pips : ℚ) (start : DT)
    (c : Candle) (results : List Outcome)
    (hstart : combine_date_and_time entry.day entry.OpenTime = some start)
    (hc : get_candle_at_time tbl symbol (format_datetime_for_db start) = some c)
    (hpos : entry.position ≠ "")
    (hres : backtest_trade tbl symbol entry sls ratios pips = some results) :
    (∀ o ∈ results, o.Result = TradeResult.Inconclusive →
      o.duration_hours = 0 ∧ o.Closeday = "N/A" ∧ o.CloseTime = "N/A" ∧
      o.EndDatetime = "N/A") ∧
    (∀ i j (hi : i < sls.length) (hj : j < ratios.length)
      (hidx : i * ratios.length + j < results.length),
      (scan_candles entry.position
          (take_profit_price entry.position c.openP
            (sls.get ⟨i, hi⟩ * pips) (ratios.get ⟨j, hj⟩))
          (stop_loss_price entry.position c.openP (sls.get ⟨i, hi⟩ * pips))
          (get_subsequent_candles tbl symbol (format_datetime_for_db start))
        = none ↔
      (results.get ⟨i * ratios.length + j, hidx⟩).Result =
        TradeResult.Inconclusive)) := by
  unfold backtest_trade at hres
  rw [hstart] at hres
  dsimp only at hres
  rw [hc] at hres
  dsimp only at hres
  rw [if_neg hpos] at hres
  constructor
  · intro o ho hinc
    obtain ⟨sl, _, r, _, hpair⟩ := for_pairs_mem hres o ho
    exact (simulate_pair_some_fields hpair).2.2.2.2.1 hinc
  · intro i j hi hj hidx
    have helt := (for_pairs_eq_some hres).2 i j hi hj hidx
    exact (simulate_pair_some_fields helt).2.2.2.2.2.symm

/-- Witness for C6: a table with no candles after the entry produces
one Inconclusive outcome carrying the sentinels, and the pair's scan is
indeed exhausted. -/
theorem inconclusive_outcome_sentinels_witness :
    (∀ o ∈ [(⟨"Buy", "", "", "", "", "Tokyo", 20, "1:2", "N/A", "N/A",
        TradeResult.Inconclusive, "2024-02-01 10:00", "N/A", 0⟩ : Outcome)],
      o.Result = TradeResult.Inconclusive →
      o.duration_hours = 0 ∧ o.Closeday = "N/A" ∧ o.CloseTime = "N/A" ∧
      o.EndDatetime = "N/A") ∧
    (∀ i j (hi : i < [(20 : ℚ)].length) (hj : j < [(2 : ℚ)].length)
      (hidx : i * [(2 : ℚ)].length + j <
        [(⟨"Buy", "", "", "", "", "Tokyo", 20, "1:2", "N/A", "N/A",
          TradeResult.Inconclusive, "2024-02-01 10:00", "N/A", 0⟩ : Outcome)].length),
      (scan_candles (⟨"01/02/24", "10:00", "Buy", "", "", "", ""⟩ : EntryData).position
          (take_profit_price
            (⟨"01/02/24", "10:00", "Buy", "", "", "", ""⟩ : EntryData).position
            (⟨"EURUSD", "2024-02-01 10:00:00", 6/5, 6/5, 6/5, 6/5⟩ : Candle).openP
            ([(20 : ℚ)].get ⟨i, hi⟩ * (1/10000)) ([(2 : ℚ)].get ⟨j, hj⟩))
          (stop_loss_price
            (⟨"01/02/24", "10:00", "Buy", "", "", "", ""⟩ : EntryData).position
            (⟨"EURUSD", "2024-02-01 10:00:00", 6/5, 6/5, 6/5, 6/5⟩ : Candle).openP
            ([(20 : ℚ)].get ⟨i, hi⟩ * (1/10000)))
          (get_subsequent_candles
            [⟨"EURUSD", "2024-02-01 10:00:00", 6/5, 6/5, 6/5, 6/5⟩] "EURUSD"
            (format_datetime_for_db ⟨2024, 2, 1, 10, 0, 0⟩))
        = none ↔
      ([(⟨"Buy", "", "", "", "", "Tokyo", 20, "1:2", "N/A", "N/A",
          TradeResult.Inconclusive, "2024-02-01 10:00", "N/A", 0⟩ : Outcome)].get
          ⟨i * [(2 : ℚ)].length + j, hidx⟩).Result =
        TradeResult.Inconclusive)) :=
  inconclusive_outcome_sentinels
    [⟨"EURUSD", "2024-02-01 10:00:00", 6/5, 6/5, 6/5, 6/5⟩] "EURUSD"
    ⟨"01/02/24", "10:00", "Buy", "", "", "", ""⟩ [20] [2] (1/10000)
    ⟨2024, 2, 1, 10, 0, 0⟩ ⟨"EURUSD", "2024-02-01 10:00:00", 6/5, 6/5, 6/5, 6/5⟩
    [⟨"Buy", "", "", "", "", "Tokyo", 20, "1:2", "N/A", "N/A",
      TradeResult.Inconclusive, "2024-02-01 10:00", "N/A", 0⟩]
    (by decide) (by decide) (by decide) (by decide)

/-- Counterexample to C7.  The claim says the caller receives a
distinguishable error kind identifying which failure occurred.  In the
code both failure paths return the bare `None`: an entry whose day
(`"garbage"`) fails to parse and an entry that parses but has no candle
at its timestamp produce *equal* results — nothing identifies which of
`InvalidTimeSpec` / `NoPriceData` happened (only the log differs). -/
theorem backtest_failures_indistinguishable :
    combine_date_and_time "garbage" "10:00" = none ∧
    (combine_date_and_time "01/02/24" "10:00").isSome = true ∧
    get_candle_at_time [] "EURUSD"
      (format_datetime_for_db ⟨2024, 2, 1, 10, 0, 0⟩) = none ∧
    backtest_trade [] "EURUSD" ⟨"garbage", "10:00", "Buy", "", "", "", ""⟩
      [20] [2] (1/10000) = none ∧
    backtest_trade [] "EURUSD" ⟨"01/02/24", "10:00", "Buy", "", "", "", ""⟩
      [20] [2] (1/10000) = none ∧
    backtest_trade [] "EURUSD" ⟨"garbage", "10:00", "Buy", "", "", "", ""⟩
      [20] [2] (1/10000) =
      backtest_trade [] "EURUSD" ⟨"01/02/24", "10:00", "Buy", "", "", "", ""⟩
        [20] [2] (1/10000) := by
  exact ⟨by decide, by decide, by decide, by decide, by decide, by decide⟩

/-- C7 (amended).  When entry time parsing fails and when no candle
exists at the exact entry timestamp, `backtest_trade` aborts with no
partial outcome list — but the caller receives the same
indistinguishable `None` in both cases; the two failure kinds are told
apart only in the log. -/
theorem backtest_failure_returns_none (tbl : List Candle) (symbol : String)
    (entry : EntryData) (sls ratios : List ℚ) (pips : ℚ) :
    (combine_date_and_time entry.day entry.OpenTime = none →
      backtest_trade tbl symbol entry sls ratios pips = none) ∧
    (∀ start, combine_date_and_time entry.day entry.OpenTime = some start →
      get_candle_at_time tbl symbol (format_datetime_for_db start) = none →
      backtest_trade tbl symbol entry sls ratios pips = none) := by
  constructor
  · intro h
    unfold backtest_trade
    rw [h]
  · intro start h hc
    unfold backtest_trade
    rw [h]
    dsimp only
    rw [hc]

/-- Witness for C7 (amended): both failure kinds at concrete inputs. -/
theorem backtest_failure_returns_none_witness :
    backtest_trade [⟨"EURUSD", "2024-03-01 09:00:00", 1, 1, 1, 1⟩] "EURUSD"
      ⟨"garbage", "10:00", "Buy", "", "", "", ""⟩ [20] [2] (1/10000) = none ∧
    backtest_trade [⟨"EURUSD", "2024-03-01 09:00:00", 1, 1, 1, 1⟩] "EURUSD"
      ⟨"01/02/24", "10:00", "Buy", "", "", "", ""⟩ [20] [2] (1/10000) = none :=
  ⟨(backtest_failure_returns_none
      [⟨"EURUSD", "2024-03-01 09:00:00", 1, 1, 1, 1⟩] "EURUSD"
      ⟨"garbage", "10:00", "Buy", "", "", "", ""⟩ [20] [2] (1/10000)).1
      (by decide),
   (backtest_failure_returns_none
      [⟨"EURUSD", "2024-03-01 09:00:00", 1, 1, 1, 1⟩] "EURUSD"
      ⟨"01/02/24", "10:00", "Buy", "", "", "", ""⟩ [20] [2] (1/10000)).2
      ⟨2024, 2, 1, 10, 0, 0⟩ (by decide) (by decide)⟩

/-- C5.  `summarize_backtest_results` computes the win rate as
winning/(winning+losing)*100 counting only Winning and Losing outcomes
(Inconclusive excluded from numerator and denominator), returning 0 —
not NaN or an error — when winning+losing is 0; and on the empty list
it returns total 0, win rate 0, average duration 0 and all seven group
maps empty. -/
theorem summarize_win_rate_def :
    (∀ rs : List Outcome,
      (summarize_backtest_results rs).win_rate =
        if 0 < rs.countP (fun r => r.Result == TradeResult.Winning) +
            rs.countP (fun r => r.Result == TradeResult.Losing) then
          ((rs.countP (fun r => r.Result == TradeResult.Winning) : ℚ) /
            ((rs.countP (fun r => r.Result == TradeResult.Winning) : ℚ) +
              (rs.countP (fun r => r.Result == TradeResult.Losing) : ℚ))) * 100
        else 0) ∧
    summarize_backtest_results [] =
      ⟨0, 0, 0, 0, 0, 0, [], [], [], [], [], [], []⟩ := by
  constructor
  · intro rs
    by_cases h : rs = []
    · subst h
      simp [summarize_backtest_results]
    · simp only [summarize_backtest_results, if_neg h]
  · rfl

/-- Projections distribute over the grouping fold. -/
theorem foldl_update_groups_proj {β : Type} (p : Groups → β)
    (step : β → Outcome → β)
    (hcomm : ∀ g o, p (update_groups g o) = step (p g) o) :
    ∀ (rs : List Outcome) (g : Groups),
      p (rs.foldl update_groups g) = rs.foldl step (p g) := by
  intro rs
  induction rs with
  | nil => intro g; rfl
  | cons o rest ih =>
    intro g
    simp only [List.foldl_cons, ih, hcomm]

/-- A fold whose step ignores elements failing `q` equals the fold over
the `q`-filtered list. -/
theorem foldl_filter_id {β : Type} (step : β → Outcome → β)
    (q : Outcome → Bool) (hid : ∀ b o, q o = false → step b o = b) :
    ∀ (rs : List Outcome) (b : β),
      rs.foldl step b = (rs.filter q).foldl step b := by
  intro rs
  induction rs with
  | nil => intro b; rfl
  | cons o rest ih =>
    intro b
    cases hq : q o with
    | false => simp only [List.foldl_cons, List.filter_cons, hq, hid b o hq,
        ih, Bool.false_eq_true, if_false]
    | true => simp only [List.foldl_cons, List.filter_cons, hq, ih, if_true]

/-- One grouping update adds exactly one to the group's total count. -/
theorem upd_group_total {κ : Type} [DecidableEq κ] (k : κ) (w : Bool) :
    ∀ m : List (κ × GroupStats), group_total (upd_group k w m) =
      group_total m + 1 := by
  intro m
  induction m with
  | nil => rfl
  | cons p rest ih =>
    by_cases hk : k = p.1
    · simp [upd_group, hk, group_total]
      omega
    · obtain ⟨k', st⟩ := p
      simp only [upd_group] at *
      rw [if_neg (by simpa using hk)]
      simp [group_total] at ih ⊢
      omega

/-- A guarded update adds one when the tag is truthy, nothing
otherwise. -/
theorem upd_tagged_total (t : String) (w : Bool)
    (m : List (String × GroupStats)) :
    group_total (upd_tagged t w m) =
      group_total m + (if t = "" then 0 else 1) := by
  unfold upd_tagged
  by_cases ht : t = ""
  · simp [ht]
  · simp [ht, upd_group_total]

/-- The final win-rate pass keeps every total. -/
theorem finalize_rates_total {κ : Type} (m : List (κ × GroupStats)) :
    group_total (finalize_rates m) = group_total m := by
  induction m with
  | nil => rfl
  | cons p rest ih => simp [finalize_rates, group_total] at ih ⊢; omega


/-- Counting fold: adds one per element satisfying `p`. -/
theorem foldl_count_step (p : Outcome → Bool) :
    ∀ (rs : List Outcome) (n : ℕ),
      rs.foldl (count_step p) n = n + rs.countP p := by
  intro rs
  induction rs with
  | nil => intro n; simp
  | cons o rest ih =>
    intro n
    cases hp : p o <;>
      simp [List.countP_cons, count_step, hp, ih] <;> omega

/-- Filtering a list by the same predicate twice is the same as
filtering once. -/
theorem filter_idem (q : Outcome → Bool) (l : List Outcome) :
    (l.filter q).filter q = l.filter q := by
  rw [List.filter_filter]
  exact List.filter_congr (fun a _ => Bool.and_self (q a))

/-- A guarded tag group's fold skips both Inconclusive outcomes and
outcomes whose tag value is empty. -/
theorem tag_fold_eq (key : Outcome → String)
    (p : Groups → List (String × GroupStats))
    (hcomm : ∀ g o, p (update_groups g o) = tag_step key (p g) o) :
    ∀ (rs : List Outcome) (g : Groups),
      p (rs.foldl update_groups g) =
        (rs.filter (fun r => key r != "")).foldl (tag_step key) (p g) := by
  intro rs g
  rw [foldl_update_groups_proj p (tag_step key) hcomm]
  exact foldl_filter_id (tag_step key) _ (fun b o hq => by
    have hk : key o = "" := by simpa using hq
    unfold tag_step
    by_cases h : o.Result = TradeResult.Inconclusive
    · simp [h]
    · simp [h, upd_tagged, hk]) rs (p g)

/-- The seven group fields of the summary are the final-rate pass over
the grouping fold (also on the empty list, where both sides are
empty). -/
theorem summarize_group_fields (rs : List Outcome) :
    (summarize_backtest_results rs).by_stoploss =
      finalize_rates ((rs.foldl update_groups empty_groups).by_stoploss) ∧
    (summarize_backtest_results rs).by_ratio =
      finalize_rates ((rs.foldl update_groups empty_groups).by_ratio) ∧
    (summarize_backtest_results rs).by_session =
      finalize_rates ((rs.foldl update_groups empty_groups).by_session) ∧
    (summarize_backtest_results rs).by_h4 =
      finalize_rates ((rs.foldl update_groups empty_groups).by_h4) ∧
    (summarize_backtest_results rs).by_h1 =
      finalize_rates ((rs.foldl update_groups empty_groups).by_h1) ∧
    (summarize_backtest_results rs).by_m15 =
      finalize_rates ((rs.foldl update_groups empty_groups).by_m15) ∧
    (summarize_backtest_results rs).by_entry_point =
      finalize_rates ((rs.foldl update_groups empty_groups).by_entry_point) := by
  by_cases h : rs = []
  · subst h
    exact ⟨rfl, rfl, rfl, rfl, rfl, rfl, rfl⟩
  · simp [summarize_backtest_results, h]

/-- Counterexample to C9.  The claim says an outcome with an empty tag
value is excluded from that tag's group.  That holds only for the four
guarded tags: a Winning outcome whose `session` is empty is *included*
in the session grouping under the empty key, while its empty `H4` is
excluded from the H4 group and its non-empty `H1` is still counted in
the H1 group. -/
theorem summarize_empty_session_included :
    (summarize_backtest_results
      [⟨"Buy", "", "x", "", "", "", 20, "1:2", "c", "t",
        TradeResult.Winning, "s", "e", 1⟩]).by_session =
      [("", ⟨1, 1, 100⟩)] ∧
    (summarize_backtest_results
      [⟨"Buy", "", "x", "", "", "", 20, "1:2", "c", "t",
        TradeResult.Winning, "s", "e", 1⟩]).by_h4 = [] ∧
    (summarize_backtest_results
      [⟨"Buy", "", "x", "", "", "", 20, "1:2", "c", "t",
        TradeResult.Winning, "s", "e", 1⟩]).by_h1 =
      [("x", ⟨1, 1, 100⟩)] := by
  exact ⟨by decide, by decide, by decide⟩

/-- C9 (amended).  Inconclusive outcomes are excluded from every
grouping; an outcome with an empty H4 / H1 / M15 / entry-point value is
excluded from that specific group only; for stop-loss size, trade ratio
and session no emptiness check is made — every non-Inconclusive outcome
is counted in those three groups (an empty value forms its own key),
and the H4 group counts exactly the non-Inconclusive outcomes with a
non-empty H4. -/
theorem summarize_tag_exclusions :
    (∀ rs : List Outcome,
      rs.foldl update_groups empty_groups =
        (rs.filter (fun r => r.Result != TradeResult.Inconclusive)).foldl
          update_groups empty_groups) ∧
    (∀ rs : List Outcome,
      (summarize_backtest_results rs).by_h4 =
        (summarize_backtest_results (rs.filter (fun r => r.H4 != ""))).by_h4 ∧
      (summarize_backtest_results rs).by_h1 =
        (summarize_backtest_results (rs.filter (fun r => r.H1 != ""))).by_h1 ∧
      (summarize_backtest_results rs).by_m15 =
        (summarize_backtest_results
          (rs.filter (fun r => r.M15 != ""))).by_m15 ∧
      (summarize_backtest_results rs).by_entry_point =
        (summarize_backtest_results
          (rs.filter (fun r => r.EntryPoint != ""))).by_entry_point) ∧
    (∀ rs : List Outcome,
      group_total (summarize_backtest_results rs).by_stoploss =
        rs.countP (fun r => r.Result != TradeResult.Inconclusive) ∧
      group_total (summarize_backtest_results rs).by_ratio =
        rs.countP (fun r => r.Result != TradeResult.Inconclusive) ∧
      group_total (summarize_backtest_results rs).by_session =
        rs.countP (fun r => r.Result != TradeResult.Inconclusive) ∧
      group_total (summarize_backtest_results rs).by_h4 =
        rs.countP (fun r =>
          r.Result != TradeResult.Inconclusive && r.H4 != "")) := by
  have hinc : ∀ rs : List Outcome,
      rs.foldl update_groups empty_groups =
        (rs.filter (fun r => r.Result != TradeResult.Inconclusive)).foldl
          update_groups empty_groups := by
    intro rs
    exact foldl_filter_id update_groups _ (fun b o hq => by
      have h : o.Result = TradeResult.Inconclusive := by simpa using hq
      simp [update_groups, h]) rs empty_groups
  have hcomm4 : ∀ g o, (update_groups g o).by_h4 =
      tag_step (fun r => r.H4) g.by_h4 o := by
    intro g o
    by_cases h : o.Result = TradeResult.Inconclusive <;>
      simp [update_groups, tag_step, h]
  have hcomm1 : ∀ g o, (update_groups g o).by_h1 =
      tag_step (fun r => r.H1) g.by_h1 o := by
    intro g o
    by_cases h : o.Result = TradeResult.Inconclusive <;>
      simp [update_groups, tag_step, h]
  have hcommM : ∀ g o, (update_groups g o).by_m15 =
      tag_step (fun r => r.M15) g.by_m15 o := by
    intro g o
    by_cases h : o.Result = TradeResult.Inconclusive <;>
      simp [update_groups, tag_step, h]
  have hcommE : ∀ g o, (update_groups g o).by_entry_point =
      tag_step (fun r => r.EntryPoint) g.by_entry_point o := by
    intro g o
    by_cases h : o.Result = TradeResult.Inconclusive <;>
      simp [update_groups, tag_step, h]
  refine ⟨hinc, ?_, ?_⟩
  · intro rs
    refine ⟨?_, ?_, ?_, ?_⟩
    · rw [(summarize_group_fields rs).2.2.2.1,
        (summarize_group_fields (rs.filter (fun r => r.H4 != ""))).2.2.2.1,
        tag_fold_eq (fun r => r.H4) Groups.by_h4 hcomm4 rs,
        tag_fold_eq (fun r => r.H4) Groups.by_h4 hcomm4
          (rs.filter (fun r => r.H4 != "")), filter_idem]
    · rw [(summarize_group_fields rs).2.2.2.2.1,
        (summarize_group_fields (rs.filter (fun r => r.H1 != ""))).2.2.2.2.1,
        tag_fold_eq (fun r => r.H1) Groups.by_h1 hcomm1 rs,
        tag_fold_eq (fun r => r.H1) Groups.by_h1 hcomm1
          (rs.filter (fun r => r.H1 != "")), filter_idem]
    · rw [(summarize_group_fields rs).2.2.2.2.2.1,
        (summarize_group_fields
          (rs.filter (fun r => r.M15 != ""))).2.2.2.2.2.1,
        tag_fold_eq (fun r => r.M15) Groups.by_m15 hcommM rs,
        tag_fold_eq (fun r => r.M15) Groups.by_m15 hcommM
          (rs.filter (fun r => r.M15 != "")), filter_idem]
    · rw [(summarize_group_fields rs).2.2.2.2.2.2,
        (summarize_group_fields
          (rs.filter (fun r => r.EntryPoint != ""))).2.2.2.2.2.2,
        tag_fold_eq (fun r => r.EntryPoint) Groups.by_entry_point hcommE rs,
        tag_fold_eq (fun r => r.EntryPoint) Groups.by_entry_point hcommE
          (rs.filter (fun r => r.EntryPoint != "")), filter_idem]
  · intro rs
    have hsl : ∀ g o, group_total (update_groups g o).by_stoploss =
        count_step (fun r => r.Result != TradeResult.Inconclusive)
          (group_total g.by_stoploss) o := by
      intro g o
      by_cases h : o.Result = TradeResult.Inconclusive <;>
        simp [update_groups, count_step, h, upd_group_total]
    have hra : ∀ g o, group_total (update_groups g o).by_ratio =
        count_step (fun r => r.Result != TradeResult.Inconclusive)
          (group_total g.by_ratio) o := by
      intro g o
      by_cases h : o.Result = TradeResult.Inconclusive <;>
        simp [update_groups, count_step, h, upd_group_total]
    have hse : ∀ g o, group_total (update_groups g o).by_session =
        count_step (fun r => r.Result != TradeResult.Inconclusive)
          (group_total g.by_session) o := by
      intro g o
      by_cases h : o.Result = TradeResult.Inconclusive <;>
        simp [update_groups, count_step, h, upd_group_total]
    have hh4 : ∀ g o, group_total (update_groups g o).by_h4 =
        count_step (fun r =>
          r.Result != TradeResult.Inconclusive && r.H4 != "")
          (group_total g.by_h4) o := by
      intro g o
      by_cases h : o.Result = TradeResult.Inconclusive
      · simp [update_groups, count_step, h]
      · by_cases h4 : o.H4 = "" <;>
          simp [update_groups, count_step, h, h4, upd_tagged_total]
    have hpsl := foldl_update_groups_proj
      (fun g => group_total g.by_stoploss)
      (count_step (fun r => r.Result != TradeResult.Inconclusive)) hsl
      rs empty_groups
    have hpra := foldl_update_groups_proj (fun g => group_total g.by_ratio)
      (count_step (fun r => r.Result != TradeResult.Inconclusive)) hra
      rs empty_groups
    have hpse := foldl_update_groups_proj (fun g => group_total g.by_session)
      (count_step (fun r => r.Result != TradeResult.Inconclusive)) hse
      rs empty_groups
    have hph4 := foldl_update_groups_proj (fun g => group_total g.by_h4)
      (count_step (fun r =>
        r.Result != TradeResult.Inconclusive && r.H4 != "")) hh4
      rs empty_groups
    simp only at hpsl hpra hpse hph4
    refine ⟨?_, ?_, ?_, ?_⟩
    · rw [(summarize_group_fields rs).1, finalize_rates_total, hpsl,
        foldl_count_step]
      simp [empty_groups, group_total]
    · rw [(summarize_group_fields rs).2.1, finalize_rates_total, hpra,
        foldl_count_step]
      simp [empty_groups, group_total]
    · rw [(summarize_group_fields rs).2.2.1, finalize_rates_total, hpse,
        foldl_count_step]
      simp [empty_groups, group_total]
    · rw [(summarize_group_fields rs).2.2.2.1, finalize_rates_total, hph4,
        foldl_count_step]
      simp [empty_groups, group_total]

/-- Bind of a successful `Except` computation. -/
theorem except_ok_bind {ε α β : Type} (a : α) (f : α → Except ε β) :
    (Except.ok a >>= f) = f a := rfl

/-- Bind of a failed `Except` computation. -/
theorem except_error_bind {ε α β : Type} (e : ε) (f : α → Except ε β) :
    ((Except.error e : Except ε α) >>= f) = Except.error e := rfl

/-- Invariant of the equity-curve fold: starting from balance `b` and
points `acc` whose last balance is `b`, a successful fold over `l` ends
at balance `b + 2·Σratio(wins) − 2·losses`, appends one point per
non-Inconclusive outcome, and its last point carries the final
balance. -/
theorem equity_fold_inv :
    ∀ (l : List Outcome) (b : ℚ) (acc : List EquityPoint)
      (res : ℚ × List EquityPoint),
      List.foldlM equity_step (b, acc) l = Except.ok res →
      acc.getLast?.elim b (fun p => p.balance) = b →
      res.1 = b + 2 * ((l.filter
          (fun r => r.Result == TradeResult.Winning)).map
          (fun r => ratio_or_default r.TradeRatio)).sum
        - 2 * (l.countP (fun r => r.Result == TradeResult.Losing) : ℚ) ∧
      res.2.length = acc.length +
        (l.countP (fun r => r.Result == TradeResult.Winning) +
          l.countP (fun r => r.Result == TradeResult.Losing)) ∧
      res.2.getLast?.elim res.1 (fun p => p.balance) = res.1 := by
  intro l
  induction l with
  | nil =>
    intro b acc res h hlast
    rw [List.foldlM_nil] at h
    have : res = (b, acc) := by
      simpa [pure, Except.pure] using h.symm
    subst this
    refine ⟨by simp, by simp, hlast⟩
  | cons o rest ih =>
    intro b acc res h hlast
    rw [List.foldlM_cons] at h
    by_cases hR : o.Result = TradeResult.Inconclusive
    · have hstep : equity_step (b, acc) o = Except.ok (b, acc) := by
        simp [equity_step, hR]
      rw [hstep, except_ok_bind] at h
      obtain ⟨h1, h2, h3⟩ := ih b acc res h hlast
      have hW : (o.Result == TradeResult.Winning) = false := by
        rw [hR]; rfl
      have hL : (o.Result == TradeResult.Losing) = false := by
        rw [hR]; rfl
      refine ⟨?_, ?_, h3⟩
      · rw [h1]
        simp [List.filter_cons, List.countP_cons, hW, hL]
      · rw [h2]
        simp [List.countP_cons, hW, hL]
    · cases hp : parse_ratio o.TradeRatio with
      | error e =>
        have hstep : equity_step (b, acc) o = Except.error e := by
          simp [equity_step, hR, hp, except_error_bind]
        rw [hstep, except_error_bind] at h
        exact absurd h (by simp)
      | ok r =>
        by_cases hW : o.Result = TradeResult.Winning
        · have hstep : equity_step (b, acc) o = Except.ok (b + 2 * r,
              acc ++ [⟨o.EndDatetime, b + 2 * r, o.Result, o.position,
                o.StoplossSize, o.TradeRatio⟩]) := by
            simp [equity_step, hR, hp, hW, except_ok_bind]
          rw [hstep, except_ok_bind] at h
          have hlast' : (acc ++ [(⟨o.EndDatetime, b + 2 * r, o.Result,
              o.position, o.StoplossSize, o.TradeRatio⟩ :
                EquityPoint)]).getLast?.elim (b + 2 * r)
              (fun p => p.balance) = b + 2 * r := by
            simp [List.getLast?_concat]
          obtain ⟨h1, h2, h3⟩ := ih (b + 2 * r) _ res h hlast'
          have hrd : ratio_or_default o.TradeRatio = r := by
            simp [ratio_or_default, hp]
          have hWb : (o.Result == TradeResult.Winning) = true := by
            rw [hW]; rfl
          have hLb : (o.Result == TradeResult.Losing) = false := by
            rw [hW]; rfl
          refine ⟨?_, ?_, h3⟩
          · rw [h1]
            simp only [List.filter_cons, List.countP_cons, hWb, hLb,
              if_true, if_false, List.map_cons, List.sum_cons, hrd]
            push_cast
            ring
          · rw [h2]
            simp only [List.countP_cons, hWb, hLb, List.length_append,
              List.length_cons]
            simp
            omega
        · have hL : o.Result = TradeResult.Losing := by
            cases hcase : o.Result <;> simp_all
          have hstep : equity_step (b, acc) o = Except.ok (b - 2,
              acc ++ [⟨o.EndDatetime, b - 2, o.Result, o.position,
                o.StoplossSize, o.TradeRatio⟩]) := by
            simp [equity_step, hR, hp, hW, except_ok_bind]
          rw [hstep, except_ok_bind] at h
          have hlast' : (acc ++ [(⟨o.EndDatetime, b - 2, o.Result,
              o.position, o.StoplossSize, o.TradeRatio⟩ :
                EquityPoint)]).getLast?.elim (b - 2)
              (fun p => p.balance) = b - 2 := by
            simp [List.getLast?_concat]
          obtain ⟨h1, h2, h3⟩ := ih (b - 2) _ res h hlast'
          have hWb : (o.Result == TradeResult.Winning) = false := by
            rw [hL]; rfl
          have hLb : (o.Result == TradeResult.Losing) = true := by
            rw [hL]; rfl
          refine ⟨?_, ?_, h3⟩
          · rw [h1]
            simp only [List.filter_cons, List.countP_cons, hWb, hLb,
              if_true, if_false]
            push_cast
            ring
          · rw [h2]
            simp only [List.countP_cons, hWb, hLb, List.length_append,
              List.length_cons]
            simp
            omega

/-- C3.  A successful equity curve has exactly one point per
non-Inconclusive outcome (its length is the number of Winning plus
Losing outcomes), and its final balance is
`100 + 2·Σ(parsed ratio over Winning) − 2·(number of Losing)`:
each Winning trade adds `2·ratio`, each Losing trade subtracts a flat 2
regardless of the current balance. -/
theorem generate_equity_curve_length_balance (rs : List Outcome)
    (pts : List EquityPoint)
    (h : generate_equity_curve rs = Except.ok pts) :
    pts.length = rs.countP (fun r => r.Result == TradeResult.Winning) +
      rs.countP (fun r => r.Result == TradeResult.Losing) ∧
    pts.getLast?.elim 100 (fun p => p.balance) =
      100 + 2 * ((rs.filter (fun r => r.Result == TradeResult.Winning)).map
        (fun r => ratio_or_default r.TradeRatio)).sum
      - 2 * (rs.countP (fun r => r.Result == TradeResult.Losing) : ℚ) := by
  unfold generate_equity_curve at h
  cases hf : List.foldlM equity_step (100, ([] : List EquityPoint))
      (sort_by_start rs) with
  | error e =>
    rw [hf] at h
    simp [Except.map] at h
  | ok st =>
    rw [hf] at h
    simp only [Except.map, Except.ok.injEq] at h
    have hperm : List.Perm (sort_by_start rs) rs :=
      List.perm_insertionSort _ _
    obtain ⟨h1, h2, h3⟩ := equity_fold_inv (sort_by_start rs) 100 [] st hf
      (by simp)
    have hcW := hperm.countP_eq (fun r => r.Result == TradeResult.Winning)
    have hcL := hperm.countP_eq (fun r => r.Result == TradeResult.Losing)
    have hsum : ((List.filter (fun r => r.Result == TradeResult.Winning)
          (sort_by_start rs)).map
          (fun r => ratio_or_default r.TradeRatio)).sum =
        ((rs.filter (fun r => r.Result == TradeResult.Winning)).map
          (fun r => ratio_or_default r.TradeRatio)).sum :=
      ((hperm.filter _).map _).sum_eq
    subst h
    constructor
    · rw [h2, hcW, hcL]
      simp
    · cases hgl : st.2.getLast? with
      | none =>
        have hnil : st.2 = [] := List.getLast?_eq_none_iff.mp hgl
        have hzero : (sort_by_start rs).countP
              (fun r => r.Result == TradeResult.Winning) = 0 ∧
            (sort_by_start rs).countP
              (fun r => r.Result == TradeResult.Losing) = 0 := by
          rw [hnil] at h2
          simp at h2
          omega
        have hWz : rs.countP (fun r => r.Result == TradeResult.Winning) = 0 :=
          by rw [← hcW]; exact hzero.1
        have hLz : rs.countP (fun r => r.Result == TradeResult.Losing) = 0 :=
          by rw [← hcL]; exact hzero.2
        have hfil : rs.filter (fun r => r.Result == TradeResult.Winning)
            = [] := by
          rw [List.filter_eq_nil_iff]
          intro a ha
          have := List.countP_eq_zero.mp hWz a ha
          simpa using this
        rw [hfil, hLz]
        simp
      | some lastEl =>
        rw [hgl] at h3
        simp only [Option.elim] at h3 ⊢
        rw [h3, h1, hsum, hcL]

/-- Witness for C3: one Winning outcome with ratio label `1:2` yields a
one-point curve ending at balance `100 + 2·2 = 104`. -/
theorem generate_equity_curve_length_balance_witness :
    ([(⟨"e", 104, TradeResult.Winning, "Buy", 20, "1:2"⟩ : EquityPoint)]).length =
      ([(⟨"Buy", "", "", "", "", "Tokyo", 20, "1:2", "c", "t",
        TradeResult.Winning, "s", "e", 1⟩ : Outcome)]).countP
        (fun r => r.Result == TradeResult.Winning) +
      ([(⟨"Buy", "", "", "", "", "Tokyo", 20, "1:2", "c", "t",
        TradeResult.Winning, "s", "e", 1⟩ : Outcome)]).countP
        (fun r => r.Result == TradeResult.Losing) ∧
    ([(⟨"e", 104, TradeResult.Winning, "Buy", 20, "1:2"⟩ :
        EquityPoint)]).getLast?.elim 100 (fun p => p.balance) =
      100 + 2 * ((([(⟨"Buy", "", "", "", "", "Tokyo", 20, "1:2", "c", "t",
          TradeResult.Winning, "s", "e", 1⟩ : Outcome)]).filter
          (fun r => r.Result == TradeResult.Winning)).map
          (fun r => ratio_or_default r.TradeRatio)).sum
        - 2 * (([(⟨"Buy", "", "", "", "", "Tokyo", 20, "1:2", "c", "t",
          TradeResult.Winning, "s", "e", 1⟩ : Outcome)]).countP
          (fun r => r.Result == TradeResult.Losing) : ℚ) :=
  generate_equity_curve_length_balance
    [⟨"Buy", "", "", "", "", "Tokyo", 20, "1:2", "c", "t",
      TradeResult.Winning, "s", "e", 1⟩]
    [⟨"e", 104, TradeResult.Winning, "Buy", 20, "1:2"⟩] (by decide)

/-- Counterexample to C8.  The default-to-1 applies only when the label
has no `':'`: with the label `"1:x"` (colon present, tail not a
number), both `generate_equity_curve` and `calculate_drawdown` raise —
they do not return a result — while the colon-free label `"abc"` does
default to ratio 1. -/
theorem ratio_parse_failure_raises :
    generate_equity_curve
      [⟨"Buy", "", "", "", "", "Tokyo", 20, "1:x", "c", "t",
        TradeResult.Winning, "s", "e", 1⟩] = Except.error () ∧
    calculate_drawdown
      [⟨"Buy", "", "", "", "", "Tokyo", 20, "1:x", "c", "t",
        TradeResult.Winning, "s", "e", 1⟩] = Except.error () ∧
    parse_ratio "1:x" = Except.error () ∧
    parse_ratio "abc" = Except.ok 1 := by
  exact ⟨by decide, by decide, by decide, by decide⟩

/-- Generic success of an `Except` fold whose steps succeed on every
element of the list. -/
theorem foldlM_ok {σ : Type} (step : σ → Outcome → Except Unit σ)
    (cond : Outcome → Prop)
    (hstep : ∀ st o, cond o → ∃ st', step st o = Except.ok st') :
    ∀ (l : List Outcome) (st : σ), (∀ o ∈ l, cond o) →
      ∃ res, List.foldlM step st l = Except.ok res := by
  intro l
  induction l with
  | nil => intro st _; exact ⟨st, rfl⟩
  | cons o rest ih =>
    intro st hc
    obtain ⟨st', hst'⟩ := hstep st o (hc o (by simp))
    obtain ⟨res, hres⟩ := ih st' (fun o' ho' => hc o' (by simp [ho']))
    exact ⟨res, by rw [List.foldlM_cons, hst', except_ok_bind, hres]⟩

/-- An if-then-else whose branches are both successes is a success. -/
theorem ite_ok {σ : Type} (c : Prop) [Decidable c] (a b : σ) :
    ∃ s', (if c then Except.ok a else Except.ok b) =
      (Except.ok s' : Except Unit σ) := by
  by_cases h : c
  · exact ⟨a, by simp [h]⟩
  · exact ⟨b, by simp [h]⟩

/-- An equity step succeeds on an outcome that is Inconclusive or
carries a parseable ratio label. -/
theorem equity_step_ok (st : ℚ × List EquityPoint) (o : Outcome)
    (hc : o.Result = TradeResult.Inconclusive ∨
      (parse_ratio o.TradeRatio).isOk) :
    ∃ st', equity_step st o = Except.ok st' := by
  by_cases hR : o.Result = TradeResult.Inconclusive
  · exact ⟨st, by simp [equity_step, hR]⟩
  · cases hp : parse_ratio o.TradeRatio with
    | error e =>
      rcases hc with h | h
      · exact absurd h hR
      · rw [hp] at h
        simp [Except.isOk, Except.toBool] at h
    | ok r =>
      refine ⟨(if o.Result = TradeResult.Winning then st.1 + 2 * r
          else st.1 - 2,
        st.2 ++ [⟨o.EndDatetime,
          if o.Result = TradeResult.Winning then st.1 + 2 * r else st.1 - 2,
          o.Result, o.position, o.StoplossSize, o.TradeRatio⟩]), ?_⟩
      simp [equity_step, hR, hp, except_ok_bind]

/-- A drawdown step succeeds on an outcome that is Inconclusive or
carries a parseable ratio label. -/
theorem drawdown_step_ok (st : DDState) (o : Outcome)
    (hc : o.Result = TradeResult.Inconclusive ∨
      (parse_ratio o.TradeRatio).isOk) :
    ∃ st', drawdown_step st o = Except.ok st' := by
  by_cases hR : o.Result = TradeResult.Inconclusive
  · exact ⟨st, by simp [drawdown_step, hR]⟩
  · cases hp : parse_ratio o.TradeRatio with
    | error e =>
      rcases hc with h | h
      · exact absurd h hR
      · rw [hp] at h
        simp [Except.isOk, Except.toBool] at h
    | ok r =>
      unfold drawdown_step
      rw [if_neg hR]
      dsimp only
      rw [hp, except_ok_bind]
      exact ite_ok _ _ _

/-- C8 (amended).  The reward ratio defaults to 1 exactly when the
`TradeRatio` label contains no `':'`; when every non-Inconclusive
outcome's label parses (colon followed by a number), both
`calculate_drawdown` and `generate_equity_curve` return a result — but
a label with `':'` followed by a non-number makes them raise (see the
counterexample). -/
theorem ratio_default_and_totality :
    (∀ s : String, ¬ (':' ∈ s.data) → parse_ratio s = Except.ok 1) ∧
    (∀ rs : List Outcome,
      (∀ o ∈ rs, o.Result = TradeResult.Inconclusive ∨
        (parse_ratio o.TradeRatio).isOk) →
      (generate_equity_curve rs).isOk ∧ (calculate_drawdown rs).isOk) := by
  constructor
  · intro s h
    simp [parse_ratio, h]
  · intro rs hrs
    have hmem : ∀ o ∈ sort_by_start rs, o.Result = TradeResult.Inconclusive ∨
        (parse_ratio o.TradeRatio).isOk := by
      intro o ho
      exact hrs o ((List.perm_insertionSort _ rs).mem_iff.mp ho)
    constructor
    · obtain ⟨res, hres⟩ := foldlM_ok equity_step _ equity_step_ok
        (sort_by_start rs) (100, []) hmem
      unfold generate_equity_curve
      rw [hres]
      rfl
    · obtain ⟨res, hres⟩ := foldlM_ok drawdown_step _ drawdown_step_ok
        (sort_by_start rs) ⟨100, 100, 0, 0, none, none, []⟩ hmem
      unfold calculate_drawdown
      rw [hres]
      rfl

/-- Witness for C8 (amended): a colon-free label defaults to 1, and a
list whose labels parse yields results from both functions. -/
theorem ratio_default_and_totality_witness :
    parse_ratio "abc" = Except.ok 1 ∧
    ((generate_equity_curve
      [⟨"Buy", "", "", "", "", "Tokyo", 20, "1:2", "c", "t",
        TradeResult.Winning, "s", "e", 1⟩]).isOk ∧
     (calculate_drawdown
      [⟨"Buy", "", "", "", "", "Tokyo", 20, "1:2", "c", "t",
        TradeResult.Winning, "s", "e", 1⟩]).isOk) :=
  ⟨ratio_default_and_totality.1 "abc" (by decide),
   ratio_default_and_totality.2
     [⟨"Buy", "", "", "", "", "Tokyo", 20, "1:2", "c", "t",
       TradeResult.Winning, "s", "e", 1⟩]
     (by
       intro o ho
       simp at ho
       subst ho
       right
       decide)⟩

/-- Counterexample to C4.  Four trades: a loss (drawdown 2%), a win to
a new peak (first period closes), a second loss (drawdown becomes
positive again, ≈1.96%, below the running max of 2%), a win to a new
peak (second period closes).  The claim says the second period is
recorded with the start timestamp of the trade where drawdown became
positive (`2024-01-03 00:00`); the code records `None`, because the
start is only captured inside the running-max update, which never fires
for a drawdown below the previous maximum.  The returned
`max_drawdown_start` is likewise `None`, not the start of the 2%
maximum drawdown. -/
theorem drawdown_period_start_lost :
    (calculate_drawdown
      [⟨"Buy", "", "", "", "", "Tokyo", 20, "1:1", "x", "x",
        TradeResult.Losing, "2024-01-01 00:00", "2024-01-01 01:00", 1⟩,
       ⟨"Buy", "", "", "", "", "Tokyo", 20, "1:2", "x", "x",
        TradeResult.Winning, "2024-01-02 00:00", "2024-01-02 01:00", 1⟩,
       ⟨"Buy", "", "", "", "", "Tokyo", 20, "1:1", "x", "x",
        TradeResult.Losing, "2024-01-03 00:00", "2024-01-03 01:00", 1⟩,
       ⟨"Buy", "", "", "", "", "Tokyo", 20, "1:2", "x", "x",
        TradeResult.Winning, "2024-01-04 00:00", "2024-01-04 01:00", 1⟩]).map
      (fun r => r.drawdown_periods.map (fun p => p.start)) =
      Except.ok [some "2024-01-01 00:00", none] ∧
    (calculate_drawdown
      [⟨"Buy", "", "", "", "", "Tokyo", 20, "1:1", "x", "x",
        TradeResult.Losing, "2024-01-01 00:00", "2024-01-01 01:00", 1⟩,
       ⟨"Buy", "", "", "", "", "Tokyo", 20, "1:2", "x", "x",
        TradeResult.Winning, "2024-01-02 00:00", "2024-01-02 01:00", 1⟩,
       ⟨"Buy", "", "", "", "", "Tokyo", 20, "1:1", "x", "x",
        TradeResult.Losing, "2024-01-03 00:00", "2024-01-03 01:00", 1⟩,
       ⟨"Buy", "", "", "", "", "Tokyo", 20, "1:2", "x", "x",
        TradeResult.Winning, "2024-01-04 00:00", "2024-01-04 01:00", 1⟩]).map
      (fun r => (r.max_drawdown_percent, r.max_drawdown_start)) =
      Except.ok (2, none) := by
  exact ⟨by decide, by decide⟩

/-- The code's `if a < b then b else a` pattern is `max`. -/
theorem ite_lt_max (a b : ℚ) : (if a < b then b else a) = max a b := by
  rcases lt_trichotomy a b with h | h | h
  · simp [h, max_eq_right h.le]
  · subst h; simp
  · simp [lt_asymm h, max_eq_left h.le]

/-- Characterisation of one successful drawdown step: the new balance
follows the ±2 model, the new peak is the running maximum of balance,
the new max drawdown is the running maximum of
`(peak − balance)/peak·100`, and any newly recorded period ends at this
outcome's end timestamp. -/
theorem drawdown_step_fields (s : DDState) (o : Outcome) (r : ℚ)
    (hR : o.Result ≠ TradeResult.Inconclusive)
    (hp : parse_ratio o.TradeRatio = Except.ok r) :
    ∀ s', drawdown_step s o = Except.ok s' →
      s'.balance = (if o.Result = TradeResult.Winning
        then s.balance + 2 * r else s.balance - 2) ∧
      s'.peak_balance = max s.peak_balance s'.balance ∧
      s'.max_drawdown = max s.max_drawdown
        ((s'.peak_balance - s'.balance) / s'.peak_balance * 100) ∧
      (∀ p ∈ s'.drawdown_periods,
        p ∈ s.drawdown_periods ∨ p.endT = o.EndDatetime) := by
  intro s' h
  unfold drawdown_step at h
  rw [if_neg hR] at h
  dsimp only at h
  rw [hp, except_ok_bind] at h
  set bal := (if o.Result = TradeResult.Winning then s.balance + 2 * r
    else s.balance - 2) with hbaldef
  by_cases h1 : s.peak_balance < bal
  · by_cases h2 : 0 < s.current_drawdown
    · rw [if_pos h1, if_pos h2] at h
      split_ifs at h with h3
      · simp only [Except.ok.injEq] at h
        subst h
        have h3' : s.max_drawdown < 0 := by simpa using h3
        refine ⟨rfl, by simp [max_eq_right h1.le], ?_, ?_⟩
        · dsimp only
          rw [← ite_lt_max]
          simp [h3']
        · intro p hp'
          dsimp only at hp'
          rcases List.mem_append.mp hp' with hmem | hmem
          · exact Or.inl hmem
          · simp at hmem
            subst hmem
            exact Or.inr rfl
      · simp only [Except.ok.injEq] at h
        subst h
        have h3' : ¬ s.max_drawdown < 0 := by simpa using h3
        refine ⟨rfl, by simp [max_eq_right h1.le], ?_, ?_⟩
        · dsimp only
          rw [← ite_lt_max]
          simp [h3']
        · intro p hp'
          dsimp only at hp'
          rcases List.mem_append.mp hp' with hmem | hmem
          · exact Or.inl hmem
          · simp at hmem
            subst hmem
            exact Or.inr rfl
    · rw [if_pos h1, if_neg h2] at h
      split_ifs at h with h3
      · simp only [Except.ok.injEq] at h
        subst h
        have h3' : s.max_drawdown < 0 := by simpa using h3
        refine ⟨rfl, by simp [max_eq_right h1.le], ?_,
          fun p hp' => Or.inl hp'⟩
        dsimp only
        rw [← ite_lt_max]
        simp [h3']
      · simp only [Except.ok.injEq] at h
        subst h
        have h3' : ¬ s.max_drawdown < 0 := by simpa using h3
        refine ⟨rfl, by simp [max_eq_right h1.le], ?_,
          fun p hp' => Or.inl hp'⟩
        dsimp only
        rw [← ite_lt_max]
        simp [h3']
  · rw [if_neg h1] at h
    split_ifs at h with h3
    · simp only [Except.ok.injEq] at h
      subst h
      refine ⟨rfl, by simp [max_eq_left (not_lt.mp h1)], ?_,
        fun p hp' => Or.inl hp'⟩
      dsimp only
      rw [← ite_lt_max]
      simp [h3]
    · simp only [Except.ok.injEq] at h
      subst h
      refine ⟨rfl, by simp [max_eq_left (not_lt.mp h1)], ?_,
        fun p hp' => Or.inl hp'⟩
      dsimp only
      rw [← ite_lt_max]
      simp [h3]

/-- Invariant of the drawdown fold: a successful fold's max drawdown is
the running maximum of `(peak − balance)/peak·100`, and every recorded
period ends at some scanned outcome's end timestamp. -/
theorem drawdown_fold_max :
    ∀ (l : List Outcome) (s s' : DDState),
      List.foldlM drawdown_step s l = Except.ok s' →
      s'.max_drawdown =
        spec_max_drawdown s.balance s.peak_balance s.max_drawdown l ∧
      ∀ p ∈ s'.drawdown_periods, p ∈ s.drawdown_periods ∨
        ∃ o ∈ l, p.endT = o.EndDatetime := by
  intro l
  induction l with
  | nil =>
    intro s s' h
    rw [List.foldlM_nil] at h
    have : s' = s := by simpa [pure, Except.pure] using h.symm
    subst this
    exact ⟨rfl, fun p hp => Or.inl hp⟩
  | cons o rest ih =>
    intro s s' h
    rw [List.foldlM_cons] at h
    by_cases hR : o.Result = TradeResult.Inconclusive
    · have hstep : drawdown_step s o = Except.ok s := by
        simp [drawdown_step, hR]
      rw [hstep, except_ok_bind] at h
      obtain ⟨h1, h2⟩ := ih s s' h
      refine ⟨?_, ?_⟩
      · rw [h1]
        simp [spec_max_drawdown, hR]
      · intro p hp
        rcases h2 p hp with hm | hex
        · exact Or.inl hm
        · obtain ⟨o', ho', he⟩ := hex
          exact Or.inr ⟨o', by simp [ho'], he⟩
    · cases hp : parse_ratio o.TradeRatio with
      | error e =>
        have hstep : drawdown_step s o = Except.error e := by
          simp [drawdown_step, hR, hp, except_error_bind]
        rw [hstep, except_error_bind] at h
        exact absurd h (by simp)
      | ok r =>
        cases hsval : drawdown_step s o with
        | error e =>
          rw [hsval, except_error_bind] at h
          exact absurd h (by simp)
        | ok s1 =>
          rw [hsval, except_ok_bind] at h
          obtain ⟨hbal, hpeak, hmax, hper⟩ :=
            drawdown_step_fields s o r hR hp s1 hsval
          obtain ⟨h1, h2⟩ := ih s1 s' h
          have hrd : ratio_or_default o.TradeRatio = r := by
            simp [ratio_or_default, hp]
          have hunf : spec_max_drawdown s.balance s.peak_balance
              s.max_drawdown (o :: rest) =
              spec_max_drawdown
                (if o.Result = TradeResult.Winning
                  then s.balance + 2 * ratio_or_default o.TradeRatio
                  else s.balance - 2)
                (max s.peak_balance
                  (if o.Result = TradeResult.Winning
                    then s.balance + 2 * ratio_or_default o.TradeRatio
                    else s.balance - 2))
                (max s.max_drawdown
                  ((max s.peak_balance
                      (if o.Result = TradeResult.Winning
                        then s.balance + 2 * ratio_or_default o.TradeRatio
                        else s.balance - 2) -
                    (if o.Result = TradeResult.Winning
                      then s.balance + 2 * ratio_or_default o.TradeRatio
                      else s.balance - 2)) /
                    max s.peak_balance
                      (if o.Result = TradeResult.Winning
                        then s.balance + 2 * ratio_or_default o.TradeRatio
                        else s.balance - 2) * 100))
                rest := by
            simp only [spec_max_drawdown]
            rw [if_neg hR]
          refine ⟨?_, ?_⟩
          · rw [h1, hunf, hrd, ← hbal, ← hpeak, ← hmax]
          · intro p hp'
            rcases h2 p hp' with hm | hex
            · rcases hper p hm with hmm | hend
              · exact Or.inl hmm
              · exact Or.inr ⟨o, by simp, hend⟩
            · obtain ⟨o', ho', he⟩ := hex
              exact Or.inr ⟨o', by simp [ho'], he⟩

/-- C4 (amended).  `maxDrawdownPercent` is the running maximum of
`(peak − balance)/peak·100` across the whole start-time-sorted
sequence, and every recorded drawdown period closes with the end
timestamp of one of the outcomes.  The recorded start timestamp,
however, is the one captured when a new overall maximum drawdown was
set — `None` for a period that never exceeded the prior maximum — not
the time drawdown last became positive (see the counterexample). -/
theorem calculate_drawdown_running_max (rs : List Outcome)
    (r : DrawdownResult) (h : calculate_drawdown rs = Except.ok r) :
    r.max_drawdown_percent = spec_max_drawdown 100 100 0 (sort_by_start rs) ∧
    ∀ p ∈ r.drawdown_periods, ∃ o ∈ rs, p.endT = o.EndDatetime := by
  unfold calculate_drawdown at h
  cases hf : List.foldlM drawdown_step ⟨100, 100, 0, 0, none, none, []⟩
      (sort_by_start rs) with
  | error e =>
    rw [hf] at h
    simp [Except.map] at h
  | ok st =>
    rw [hf] at h
    simp only [Except.map, Except.ok.injEq] at h
    subst h
    obtain ⟨h1, h2⟩ := drawdown_fold_max (sort_by_start rs) _ st hf
    constructor
    · simpa using h1
    · intro p hp
      rcases h2 p (by simpa using hp) with hm | hex
      · simp at hm
      · obtain ⟨o, ho, he⟩ := hex
        refine ⟨o, ?_, he⟩
        unfold sort_by_start at ho
        exact (List.perm_insertionSort
          (fun a b => str_le a.StartDatetime b.StartDatetime = true)
          rs).mem_iff.mp ho

/-- Witness for C4 (amended), on the counterexample fixture: the
maximum drawdown 2% is the running maximum over the sorted sequence,
and both periods close at outcome end timestamps. -/
theorem calculate_drawdown_running_max_witness :
    (⟨2, none, some "2024-01-01 01:00", 104, 104,
      [⟨some "2024-01-01 00:00", "2024-01-02 01:00", 2, 1⟩,
       ⟨none, "2024-01-04 01:00", 100/51, 1⟩]⟩ :
        DrawdownResult).max_drawdown_percent =
      spec_max_drawdown 100 100 0 (sort_by_start
        [⟨"Buy", "", "", "", "", "Tokyo", 20, "1:1", "x", "x",
          TradeResult.Losing, "2024-01-01 00:00", "2024-01-01 01:00", 1⟩,
         ⟨"Buy", "", "", "", "", "Tokyo", 20, "1:2", "x", "x",
          TradeResult.Winning, "2024-01-02 00:00", "2024-01-02 01:00", 1⟩,
         ⟨"Buy", "", "", "", "", "Tokyo", 20, "1:1", "x", "x",
          TradeResult.Losing, "2024-01-03 00:00", "2024-01-03 01:00", 1⟩,
         ⟨"Buy", "", "", "", "", "Tokyo", 20, "1:2", "x", "x",
          TradeResult.Winning, "2024-01-04 00:00", "2024-01-04 01:00", 1⟩]) ∧
    ∀ p ∈ (⟨2, none, some "2024-01-01 01:00", 104, 104,
      [⟨some "2024-01-01 00:00", "2024-01-02 01:00", 2, 1⟩,
       ⟨none, "2024-01-04 01:00", 100/51, 1⟩]⟩ :
        DrawdownResult).drawdown_periods,
      ∃ o ∈ [(⟨"Buy", "", "", "", "", "Tokyo", 20, "1:1", "x", "x",
          TradeResult.Losing, "2024-01-01 00:00", "2024-01-01 01:00", 1⟩ :
            Outcome),
         ⟨"Buy", "", "", "", "", "Tokyo", 20, "1:2", "x", "x",
          TradeResult.Winning, "2024-01-02 00:00", "2024-01-02 01:00", 1⟩,
         ⟨"Buy", "", "", "", "", "Tokyo", 20, "1:1", "x", "x",
          TradeResult.Losing, "2024-01-03 00:00", "2024-01-03 01:00", 1⟩,
         ⟨"Buy", "", "", "", "", "Tokyo", 20, "1:2", "x", "x",
          TradeResult.Winning, "2024-01-04 00:00", "2024-01-04 01:00", 1⟩],
        p.endT = o.EndDatetime :=
  calculate_drawdown_running_max
    [⟨"Buy", "", "", "", "", "Tokyo", 20, "1:1", "x", "x",
      TradeResult.Losing, "2024-01-01 00:00", "2024-01-01 01:00", 1⟩,
     ⟨"Buy", "", "", "", "", "Tokyo", 20, "1:2", "x", "x",
      TradeResult.Winning, "2024-01-02 00:00", "2024-01-02 01:00", 1⟩,
     ⟨"Buy", "", "", "", "", "Tokyo", 20, "1:1", "x", "x",
      TradeResult.Losing, "2024-01-03 00:00", "2024-01-03 01:00", 1⟩,
     ⟨"Buy", "", "", "", "", "Tokyo", 20, "1:2", "x", "x",
      TradeResult.Winning, "2024-01-04 00:00", "2024-01-04 01:00", 1⟩]
    ⟨2, none, some "2024-01-01 01:00", 104, 104,
      [⟨some "2024-01-01 00:00", "2024-01-02 01:00", 2, 1⟩,
       ⟨none, "2024-01-04 01:00", 100/51, 1⟩]⟩ (by decide)
